import Mathlib

/-!
# Verification of `samples/OpenGL/frustum/frustum.c`

A shallow embedding of the geometry code of `frustum.c` (vector math, `draw_strokestring`,
`draw_arrow`, `draw_frustum`, `display_observer`) and theorems about it.

Modelling conventions.

* C `float`/`double` values are elements of a type `K` carrying the arithmetic operations the
  source uses.  The theorems instantiate `K` with the real numbers (exact arithmetic, no
  rounding) and, where rounding or division by zero matters, with `F64`, the IEEE 754 binary64
  arithmetic of the type `double` in which the vector math and the frame of `draw_arrow` are
  computed.  `sqrt` and `fmodf` of `<math.h>`, and the cosine and sine OpenGL uses for a
  rotation, are passed as parameters.
* A C array `double[3]` / `GLfloat[3]` is a `Vec3`; a `GLdouble[16]` is a `Mat4` whose field
  `mi` is the array element `[i]` (OpenGL column-major layout).
* Functions that write through pointers return the written values.
* The OpenGL / GLUT calls are external library code; the few whose effect the geometry depends
  on (`glTranslatef`, `glRotatef`, `glScalef`, `glMultMatrixd`, `glDrawElements`,
  `glutStrokeCharacter`) are modelled after the OpenGL 1.x and GLUT documentation as functions
  on the current matrix.
-/

namespace Frustum

/-- Three consecutive floating point cells, `a[0]`, `a[1]`, `a[2]`. -/
structure Vec3 (K : Type) where
  x : K
  y : K
  z : K
deriving DecidableEq, Repr

/-- Sixteen consecutive cells `m[0] .. m[15]` of an OpenGL matrix, column-major: `m[4*c + r]` is
the entry in row `r` and column `c`. -/
structure Mat4 (K : Type) where
  m0 : K
  m1 : K
  m2 : K
  m3 : K
  m4 : K
  m5 : K
  m6 : K
  m7 : K
  m8 : K
  m9 : K
  m10 : K
  m11 : K
  m12 : K
  m13 : K
  m14 : K
  m15 : K
deriving DecidableEq, Repr

/-- Homogeneous coordinates of a point. -/
structure Vec4 (K : Type) where
  x : K
  y : K
  z : K
  w : K
deriving DecidableEq, Repr

section VectorMath

variable {K : Type} [Zero K] [One K] [NatCast K] [Add K] [Sub K] [Mul K] [Div K] [Neg K]
  [OfScientific K]

/-! ## basic Q^3 vector math functions (frustum.c lines 12-81) -/

/-- Source `crossproduct` (lines 14-22); the result is the triple written to `*rx, *ry, *rz`. -/
def crossproduct (ax ay az bx by' bz : K) : Vec3 K :=
  { x := ay*bz - az*by'
    y := az*bx - ax*bz
    z := ax*by' - ay*bx }

/-- Source `crossproduct_v` (lines 24-33); the result is the array `c`. -/
def crossproduct_v (a b : Vec3 K) : Vec3 K :=
  crossproduct a.x a.y a.z b.x b.y b.z

/-- Source `scalarproduct` (lines 35-40). -/
def scalarproduct (ax ay az bx by' bz : K) : K :=
  ax*bx + ay*by' + az*bz

/-- Source `scalarproduct_v` (lines 42-49). -/
def scalarproduct_v (a b : Vec3 K) : K :=
  scalarproduct a.x a.y a.z b.x b.y b.z

/-- Source `length` (lines 51-58). -/
def length (sqrt : K → K) (ax ay az : K) : K :=
  sqrt (scalarproduct ax ay az ax ay az)

/-- Source `length_v` (lines 60-63). -/
def length_v (sqrt : K → K) (a : Vec3 K) : K :=
  sqrt (scalarproduct_v a a)

/-- Source `normalize` (lines 65-73); the result is the triple left in `*x, *y, *z`.  The C
function is declared `double` but has no `return` statement and no caller reads a value. -/
def normalize (sqrt : K → K) (x y z : K) : Vec3 K :=
  let k := 1 / length sqrt x y z
  { x := x * k
    y := y * k
    z := z * k }

/-- Source `normalize_v` (lines 75-81); the result is the array `a` after the call. -/
def normalize_v (sqrt : K → K) (a : Vec3 K) : Vec3 K :=
  let k := 1 / length_v sqrt a
  { x := a.x * k
    y := a.y * k
    z := a.z * k }

/-! ## OpenGL matrix stack operations (external library, modelled) -/

/-- The matrix product `a * b` of two column-major matrices. -/
def Mat4.mul (a b : Mat4 K) : Mat4 K :=
  { m0 := a.m0*b.m0 + a.m4*b.m1 + a.m8*b.m2 + a.m12*b.m3
    m1 := a.m1*b.m0 + a.m5*b.m1 + a.m9*b.m2 + a.m13*b.m3
    m2 := a.m2*b.m0 + a.m6*b.m1 + a.m10*b.m2 + a.m14*b.m3
    m3 := a.m3*b.m0 + a.m7*b.m1 + a.m11*b.m2 + a.m15*b.m3
    m4 := a.m0*b.m4 + a.m4*b.m5 + a.m8*b.m6 + a.m12*b.m7
    m5 := a.m1*b.m4 + a.m5*b.m5 + a.m9*b.m6 + a.m13*b.m7
    m6 := a.m2*b.m4 + a.m6*b.m5 + a.m10*b.m6 + a.m14*b.m7
    m7 := a.m3*b.m4 + a.m7*b.m5 + a.m11*b.m6 + a.m15*b.m7
    m8 := a.m0*b.m8 + a.m4*b.m9 + a.m8*b.m10 + a.m12*b.m11
    m9 := a.m1*b.m8 + a.m5*b.m9 + a.m9*b.m10 + a.m13*b.m11
    m10 := a.m2*b.m8 + a.m6*b.m9 + a.m10*b.m10 + a.m14*b.m11
    m11 := a.m3*b.m8 + a.m7*b.m9 + a.m11*b.m10 + a.m15*b.m11
    m12 := a.m0*b.m12 + a.m4*b.m13 + a.m8*b.m14 + a.m12*b.m15
    m13 := a.m1*b.m12 + a.m5*b.m13 + a.m9*b.m14 + a.m13*b.m15
    m14 := a.m2*b.m12 + a.m6*b.m13 + a.m10*b.m14 + a.m14*b.m15
    m15 := a.m3*b.m12 + a.m7*b.m13 + a.m11*b.m14 + a.m15*b.m15 }

/-- The matrix-vector product `m * v`: where the matrix `m` sends the homogeneous point `v`. -/
def Mat4.mulVec (m : Mat4 K) (v : Vec4 K) : Vec4 K :=
  { x := m.m0*v.x + m.m4*v.y + m.m8*v.z + m.m12*v.w
    y := m.m1*v.x + m.m5*v.y + m.m9*v.z + m.m13*v.w
    z := m.m2*v.x + m.m6*v.y + m.m10*v.z + m.m14*v.w
    w := m.m3*v.x + m.m7*v.y + m.m11*v.z + m.m15*v.w }

/-- OpenGL `glMultMatrixd(m)`: the current matrix `cur` is replaced by `cur * m`. -/
def glMultMatrixd (cur m : Mat4 K) : Mat4 K :=
  cur.mul m

/-- The identity matrix, loaded by `glLoadIdentity`. -/
def Mat4.identity : Mat4 K :=
  ⟨1, 0, 0, 0,
   0, 1, 0, 0,
   0, 0, 1, 0,
   0, 0, 0, 1⟩

/-- The translation matrix by `(x, y, z)`. -/
def Mat4.translation (x y z : K) : Mat4 K :=
  ⟨1, 0, 0, 0,
   0, 1, 0, 0,
   0, 0, 1, 0,
   x, y, z, 1⟩

/-- The scaling matrix by the factors `x, y, z`. -/
def Mat4.scaling (x y z : K) : Mat4 K :=
  ⟨x, 0, 0, 0,
   0, y, 0, 0,
   0, 0, z, 0,
   0, 0, 0, 1⟩

/-- OpenGL `glTranslatef(x, y, z)`: the current matrix is multiplied by the translation. -/
def glTranslatef (cur : Mat4 K) (x y z : K) : Mat4 K :=
  cur.mul (Mat4.translation x y z)

/-- OpenGL `glScalef(x, y, z)`: the current matrix is multiplied by the scaling. -/
def glScalef (cur : Mat4 K) (x y z : K) : Mat4 K :=
  cur.mul (Mat4.scaling x y z)

/-- The index array `GLushort idx[][2]` as the flat sequence of shorts OpenGL reads. -/
def flattenIdx : List (Nat × Nat) → List Nat
  | [] => []
  | e :: es => e.1 :: e.2 :: flattenIdx es

/-- Consecutive pairs of a flat index sequence: the segments of a `GL_LINES` draw. -/
def pairUp : List Nat → List (Nat × Nat)
  | i :: j :: rest => (i, j) :: pairUp rest
  | _ => []

/-- OpenGL `glDrawElements(GL_LINES, count, GL_UNSIGNED_SHORT, indices)`: the line segments
drawn, as pairs of indices into the current vertex array.  The first `count` indices are read. -/
def glDrawElements (count : Nat) (indices : List (Nat × Nat)) : List (Nat × Nat) :=
  pairUp ((flattenIdx indices).take count)

/-! ## annotation drawing functions (frustum.c lines 83-239) -/

/-- What one call of `draw_strokestring` hands to the stroke font renderer. -/
structure StrokeString (K : Type) where
  /-- the current matrix after `glScalef` (line 89): the frame of the string's native units -/
  base : Mat4 K
  /-- each character with the current matrix at its `glutStrokeCharacter` call -/
  strokes : List (Mat4 K × Char)
deriving DecidableEq, Repr

/-- The loop of lines 91-94.  GLUT `glutStrokeCharacter(font, c)` strokes `c` under the current
matrix and then translates the current matrix by the character's advance along x. -/
def strokeChars (glutStrokeAdvance : Char → K) : Mat4 K → List Char → List (Mat4 K × Char)
  | _, [] => []
  | m, c :: cs => (m, c) :: strokeChars glutStrokeAdvance (glTranslatef m (glutStrokeAdvance c) 0 0) cs

/-- Source `draw_strokestring` (lines 85-96).  `cur` is the current matrix at entry (it is
restored by `glPopMatrix` at exit); a NULL `string` is `none`. -/
def draw_strokestring (glutStrokeAdvance : Char → K) (cur : Mat4 K) (size : K)
    (string : Option String) : StrokeString K :=
  let scale := size * 0.01
  let m := glScalef cur scale scale scale
  { base := m
    strokes := strokeChars glutStrokeAdvance m
      (match string with
       | none => []
       | some s => s.toList) }

/-- The label part of `draw_arrow` (lines 167-189). -/
structure ArrowLabel (K : Type) where
  /-- local `w` after line 171 -/
  w : K
  /-- locals `tx, ty, tz` (lines 173-175) -/
  t : Vec3 K
  /-- local `r` (lines 177-182) -/
  r : Mat4 K
  /-- the call of line 187 -/
  text : StrokeString K
deriving DecidableEq, Repr

/-- What one call of `draw_arrow` computes and submits. -/
structure ArrowDraw (K : Type) where
  /-- local `d` after line 123 -/
  d : Vec3 K
  /-- local `n` after line 131 -/
  n : Vec3 K
  /-- local `b` after line 134 -/
  b : Vec3 K
  /-- the vertex array `pos` given to `glVertexPointer` (lines 136-151, 162) -/
  pos : List (Vec3 K)
  /-- the index array `idx` (lines 152-156) -/
  idx : List (Nat × Nat)
  /-- the segments drawn by `glDrawElements` (line 164) -/
  lines : List (Nat × Nat)
  /-- the label branch (lines 167-189), `none` when the label pointer is NULL -/
  label : Option (ArrowLabel K)
deriving DecidableEq, Repr

/-- Source `draw_arrow` (lines 98-190).  `mv` is the modelview matrix read by `glGetDoublev`
(line 108); it is also the current matrix of the calls of lines 183-188, the matrix mode being
`GL_MODELVIEW` at every call site.  `glutStrokeWidth` and `glutStrokeAdvance` are the width table
and the advance of the GLUT stroke font `GLUT_STROKE_ROMAN`. -/
def draw_arrow (sqrt : K → K) (glutStrokeWidth glutStrokeAdvance : Char → K) (mv : Mat4 K)
    (ax ay az bx by' bz ah bh : K) ( annotation : Option String) (annot_size : K) :
    ArrowDraw K :=
  let d : Vec3 K := normalize_v sqrt ⟨bx - ax, by' - ay, bz - az⟩
  let n0 : Vec3 K := ⟨mv.m2, mv.m6, mv.m10⟩
  let s := scalarproduct_v d n0
  let n1 : Vec3 K := ⟨n0.x - d.x*s, n0.y - d.y*s, n0.z - d.z*s⟩
  let n : Vec3 K := normalize_v sqrt n1
  let b : Vec3 K := crossproduct_v n d
  let pos : List (Vec3 K) :=
    [ ⟨ax, ay, az⟩,
      ⟨bx, by', bz⟩,
      ⟨ax + (0.866*d.x + 0.5*b.x)*ah,
       ay + (0.866*d.y + 0.5*b.y)*ah,
       az + (0.866*d.z + 0.5*b.z)*ah⟩,
      ⟨ax + (0.866*d.x - 0.5*b.x)*ah,
       ay + (0.866*d.y - 0.5*b.y)*ah,
       az + (0.866*d.z - 0.5*b.z)*ah⟩,
      ⟨bx + (-0.866*d.x + 0.5*b.x)*bh,
       by' + (-0.866*d.y + 0.5*b.y)*bh,
       bz + (-0.866*d.z + 0.5*b.z)*bh⟩,
      ⟨bx + (-0.866*d.x - 0.5*b.x)*bh,
       by' + (-0.866*d.y - 0.5*b.y)*bh,
       bz + (-0.866*d.z - 0.5*b.z)*bh⟩ ]
  let idx : List (Nat × Nat) :=
    [ (0, 1),
      (0, 2), (0, 3),
      (1, 4), (1, 5) ]
  { d := d
    n := n
    b := b
    pos := pos
    idx := idx
    lines := glDrawElements (2*5) idx
    label := annotation.map fun str =>
      let w0 : K := str.toList.foldl (fun w c => w + glutStrokeWidth c) 0
      let w : K := w0 * (annot_size / 100)
      let tx : K := (ax + bx - w*d.x)/2
      let ty : K := (ay + by' - w*d.y)/2
      let tz : K := (az + bz - w*d.z)/2
      let r : Mat4 K :=
        ⟨d.x, d.y, d.z, 0,
         b.x, b.y, b.z, 0,
         n.x, n.y, n.z, 0,
           0,   0,   0, 1⟩
      let cur := glTranslatef mv tx ty tz
      let cur := glMultMatrixd cur r
      let cur := glTranslatef cur 0 (annot_size*0.1) 0
      { w := w
        t := ⟨tx, ty, tz⟩
        r := r
        text := draw_strokestring glutStrokeAdvance cur annot_size (some str) } }

/-- The line state in force at a `glDrawElements` call of `draw_frustum`. -/
structure LineState where
  /-- argument of the last `glLineWidth` -/
  width : Nat
  /-- arguments of the last `glLineStipple` -/
  stippleFactor : Nat
  stipplePattern : Nat
  /-- whether `GL_LINE_STIPPLE` is enabled -/
  stipple : Bool
deriving DecidableEq, Repr

/-- What one call of `draw_frustum` submits. -/
structure FrustumDraw (K : Type) where
  /-- the vertex array `pos` given to `glVertexPointer` (lines 197-207, 225) -/
  pos : List (Vec3 K)
  /-- the index arrays (lines 208-218) -/
  idx_tip : List (Nat × Nat)
  idx_vol : List (Nat × Nat)
  /-- line state and segments of the first `glDrawElements` (lines 227-230) -/
  tipState : LineState
  tip : List (Nat × Nat)
  /-- line state and segments of the second `glDrawElements` (lines 232-235) -/
  volState : LineState
  vol : List (Nat × Nat)
deriving DecidableEq, Repr

/-- Source `draw_frustum` (lines 192-239). -/
def draw_frustum (l r b t n f : K) : FrustumDraw K :=
  let kf : K := f/n
  let pos : List (Vec3 K) :=
    [ ⟨0, 0, 0⟩,
      ⟨l, b, -n⟩,
      ⟨r, b, -n⟩,
      ⟨r, t, -n⟩,
      ⟨l, t, -n⟩,
      ⟨kf*l, kf*b, -f⟩,
      ⟨kf*r, kf*b, -f⟩,
      ⟨kf*r, kf*t, -f⟩,
      ⟨kf*l, kf*t, -f⟩ ]
  let idx_tip : List (Nat × Nat) :=
    [ (0, 1),
      (0, 2),
      (0, 3),
      (0, 4) ]
  let idx_vol : List (Nat × Nat) :=
    [ (1, 5), (2, 6), (3, 7), (4, 8),
      (1, 2), (2, 3), (3, 4), (4, 1),
      (5, 6), (6, 7), (7, 8), (8, 5) ]
  { pos := pos
    idx_tip := idx_tip
    idx_vol := idx_vol
    tipState := { width := 1, stippleFactor := 2, stipplePattern := 0xf3cf, stipple := true }
    tip := glDrawElements (2*4) idx_tip
    volState := { width := 2, stippleFactor := 1, stipplePattern := 0xffff, stipple := false }
    vol := glDrawElements (2*4*3) idx_vol }

/-! ## scene drawing code (frustum.c lines 241-298) -/

/-- OpenGL `glRotatef(angle, x, y, z)`: the current matrix is multiplied by the rotation of
`angle` degrees about the axis `(x, y, z)`, which OpenGL normalises first.  `cosDeg` and `sinDeg`
are the cosine and the sine of an angle given in degrees. -/
def glRotatef (sqrt cosDeg sinDeg : K → K) (cur : Mat4 K) (angle x y z : K) : Mat4 K :=
  let mag := sqrt (x*x + y*y + z*z)
  let x := x / mag
  let y := y / mag
  let z := z / mag
  let c := cosDeg angle
  let s := sinDeg angle
  cur.mul
    ⟨x*x*(1 - c) + c, y*x*(1 - c) + z*s, x*z*(1 - c) - y*s, 0,
     x*y*(1 - c) - z*s, y*y*(1 - c) + c, y*z*(1 - c) + x*s, 0,
     x*z*(1 - c) + y*s, y*z*(1 - c) - x*s, z*z*(1 - c) + c, 0,
     0, 0, 0, 1⟩

/-- The arguments of one call of `draw_arrow`. -/
structure ArrowCall (K : Type) where
  ax : K
  ay : K
  az : K
  bx : K
  by' : K
  bz : K
  ah : K
  bh : K
  /-- the label pointer, `none` when NULL -/
  annot : Option String
  annot_size : K
deriving DecidableEq, Repr

/-- One geometry submission of a frame: a call of `draw_frustum`, or a call of `draw_arrow`
together with its arguments. -/
inductive Submission (K : Type) where
  | frustum (g : FrustumDraw K)
  | arrow (call : ArrowCall K) (g : ArrowDraw K)
deriving DecidableEq, Repr

/-- What one call of `display_observer` does. -/
structure ObserverFrame (K : Type) where
  /-- the modelview matrix after lines 263-269 -/
  mv : Mat4 K
  /-- the geometry submitted by lines 284-292, in order -/
  submissions : List (Submission K)
  /-- the static variable `alpha` after line 296 -/
  alpha : K
deriving DecidableEq, Repr

/-- Source `display_observer` (lines 243-298).  The argument `alpha` is the value of the static
variable `alpha` at entry.  `fmodf` is the function of `<math.h>`.  The viewport, the clear and
the projection matrix (lines 247-261) touch neither the modelview matrix nor `alpha` and are left
out; so is the dead `else` branch of `if(1)` (line 271). -/
def display_observer (sqrt cosDeg sinDeg : K → K) (fmodf : K → K → K)
    (glutStrokeWidth glutStrokeAdvance : Char → K) (alpha : K) : ObserverFrame K :=
  let mv : Mat4 K := Mat4.identity
  let mv := glTranslatef mv 0 0 (-5)
  let mv := glRotatef sqrt cosDeg sinDeg mv 30 1 0 0
  let mv := glRotatef sqrt cosDeg sinDeg mv alpha 0 1 0
  let mv := glTranslatef mv 0 0 2.5
  let l : K := -0.5
  let r : K := 0.5
  let b : K := -0.5
  let t : K := 0.5
  let n : K := 1
  let f : K := 4
  let arrow (c : ArrowCall K) : Submission K :=
    .arrow c (draw_arrow sqrt glutStrokeWidth glutStrokeAdvance mv
      c.ax c.ay c.az c.bx c.by' c.bz c.ah c.bh c.annot c.annot_size)
  { mv := mv
    submissions :=
      [ .frustum (draw_frustum l r b t n f),
        arrow ⟨0, 0, 0, 0, 0, -n, 0.1, 0.1, some "near", 0.075⟩,
        arrow ⟨l, 0, -n, 0, 0, -n, 0.1, 0, some "left", 0.075⟩,
        arrow ⟨0, 0, -n, r, 0, -n, 0, 0.1, some "right", 0.075⟩,
        arrow ⟨0, b, -n, 0, 0, -n, 0.1, 0, some "bottom", 0.075⟩,
        arrow ⟨0, 0, -n, 0, t, -n, 0, 0.1, some "top", 0.075⟩ ]
    alpha := fmodf (alpha + 0.1) 360 }

end VectorMath

/-! ## IEEE 754 binary64

`F64` is the arithmetic of a C `double`: round to nearest, ties to even, 53 bits of precision,
subnormal numbers down to `2^-1074`, overflow to infinity at `2^1024`, signed zeros, NaN.  No
operation is contracted into a fused multiply-add. -/

/-- A binary64 value.  `fin neg m e` is `(-1)^neg * m * 2^e`, kept with `m` odd, or with `m = 0`
and `e = 0` for the two zeros; `inf neg` is `+∞` or `-∞`. -/
inductive F64 where
  | fin (neg : Bool) (m : Nat) (e : Int)
  | inf (neg : Bool)
  | nan
deriving DecidableEq, Repr

/-- The position of the leading bit of `n`, that is `⌊log₂ n⌋`, for `0 < n < 2^fuel`. -/
def F64.log2Aux : Nat → Nat → Nat
  | 0, _ => 0
  | fuel + 1, n => if n < 2 then 0 else F64.log2Aux fuel (n / 2) + 1

/-- The position of the leading bit of `n`: `⌊log₂ n⌋` (`0` for `n = 0`). -/
def F64.log2 (n : Nat) : Nat :=
  F64.log2Aux 8192 n

/-- Removes the trailing zero bits of `m`, adding them to the exponent (at most `fuel` of
them). -/
def F64.strip : Nat → Nat → Int → Nat × Int
  | 0, m, e => (m, e)
  | fuel + 1, m, e => if m % 2 = 0 then F64.strip fuel (m / 2) (e + 1) else (m, e)

/-- The canonical form of `(-1)^neg * m * 2^e`. -/
def F64.canon (neg : Bool) (m : Nat) (e : Int) : F64 :=
  if m = 0 then .fin neg 0 0
  else .fin neg (F64.strip 4096 m e).1 (F64.strip 4096 m e).2

/-- Rounds `(-1)^neg * (m + δ) * 2^e` to binary64, where `0 ≤ δ < 1` and `δ ≠ 0` exactly when
`sticky` is set (the callers then supply at least 64 significant bits in `m`). -/
def F64.round (neg : Bool) (m : Nat) (e : Int) (sticky : Bool) : F64 :=
  if m = 0 then .fin neg 0 0
  else
    let top : Int := e + F64.log2 m
    let q : Int := max (top - 52) (-1074)
    if q ≤ e then
      if 1024 ≤ top then .inf neg else F64.canon neg m e
    else
      let sh : Nat := (q - e).toNat
      let mant : Nat := m / 2 ^ sh
      let rest : Nat := m % 2 ^ sh
      let half : Nat := 2 ^ (sh - 1)
      let up : Bool :=
        decide (half < rest) || (decide (rest = half) && (sticky || mant % 2 == 1))
      let mant : Nat := if up then mant + 1 else mant
      if mant = 0 then .fin neg 0 0
      else if 1024 ≤ q + F64.log2 mant then .inf neg
      else F64.canon neg mant q

/-- Negation: the sign bit is flipped. -/
def F64.neg : F64 → F64
  | .fin s m e => .fin (!s) m e
  | .inf s => .inf (!s)
  | .nan => .nan

/-- Addition, correctly rounded. -/
def F64.add : F64 → F64 → F64
  | .fin s1 m1 e1, .fin s2 m2 e2 =>
      let e : Int := min e1 e2
      let a : Int := ((m1 * 2 ^ (e1 - e).toNat : Nat) : Int)
      let b : Int := ((m2 * 2 ^ (e2 - e).toNat : Nat) : Int)
      let sum : Int := (if s1 then -a else a) + (if s2 then -b else b)
      if sum = 0 then .fin (s1 && s2) 0 0
      else F64.round (decide (sum < 0)) sum.natAbs e false
  | .fin _ _ _, .inf s => .inf s
  | .inf s, .fin _ _ _ => .inf s
  | .inf s, .inf s' => if s = s' then .inf s else .nan
  | _, _ => .nan

/-- Multiplication, correctly rounded; `0 * ∞` is NaN. -/
def F64.mul : F64 → F64 → F64
  | .fin s1 m1 e1, .fin s2 m2 e2 => F64.round (xor s1 s2) (m1 * m2) (e1 + e2) false
  | .fin s m _, .inf s' => if m = 0 then .nan else .inf (xor s s')
  | .inf s, .fin s' m _ => if m = 0 then .nan else .inf (xor s s')
  | .inf s, .inf s' => .inf (xor s s')
  | _, _ => .nan

/-- Division, correctly rounded; `x / 0` is `±∞` for `x ≠ 0` and `0 / 0` is NaN. -/
def F64.div : F64 → F64 → F64
  | .fin s1 m1 e1, .fin s2 m2 e2 =>
      if m2 = 0 then (if m1 = 0 then .nan else .inf (xor s1 s2))
      else
        let k : Nat := 65 + F64.log2 m2
        F64.round (xor s1 s2) (m1 * 2 ^ k / m2) (e1 - e2 - k) (m1 * 2 ^ k % m2 != 0)
  | .fin s1 _ _, .inf s2 => .fin (xor s1 s2) 0 0
  | .inf s1, .fin s2 _ _ => .inf (xor s1 s2)
  | _, _ => .nan

/-- The integer square root, digit by digit: `isqrtAux M i r` decides the bits below `2^i`. -/
def F64.isqrtAux (M : Nat) : Nat → Nat → Nat
  | 0, r => r
  | i + 1, r =>
      if (r + 2 ^ i) * (r + 2 ^ i) ≤ M then F64.isqrtAux M i (r + 2 ^ i)
      else F64.isqrtAux M i r

/-- The integer square root `⌊√M⌋`. -/
def F64.isqrt (M : Nat) : Nat :=
  F64.isqrtAux M (F64.log2 M / 2 + 1) 0

/-- The function `sqrt` of `<math.h>`, correctly rounded. -/
def F64.sqrt : F64 → F64
  | .fin s m e =>
      if m = 0 then .fin s 0 0
      else if s then .nan
      else
        let k : Nat := if (e - 128) % 2 = 0 then 128 else 129
        let r : Nat := F64.isqrt (m * 2 ^ k)
        F64.round false r ((e - k) / 2) (r * r != m * 2 ^ k)
  | .inf false => .inf false
  | _ => .nan

instance : Zero F64 := ⟨.fin false 0 0⟩

instance : One F64 := ⟨.fin false 1 0⟩

instance : NatCast F64 := ⟨fun n => F64.round false n 0 false⟩

instance : Add F64 := ⟨F64.add⟩

instance : Sub F64 := ⟨fun a b => F64.add a (F64.neg b)⟩

instance : Mul F64 := ⟨F64.mul⟩

instance : Div F64 := ⟨F64.div⟩

instance : Neg F64 := ⟨F64.neg⟩

/-- A decimal literal `m * 10^(-e)` (or `m * 10^e`), correctly rounded. -/
instance : OfScientific F64 :=
  ⟨fun m s e =>
    if s then
      F64.round false (m * 2 ^ (65 + F64.log2 (10 ^ e)) / 10 ^ e)
        (-((65 + F64.log2 (10 ^ e) : Nat) : Int))
        (m * 2 ^ (65 + F64.log2 (10 ^ e)) % 10 ^ e != 0)
    else F64.round false (m * 10 ^ e) 0 false⟩

/-- The value of a finite binary64 number as a rational (`0` for the infinities and NaN). -/
def F64.toRat : F64 → ℚ
  | .fin s m e => (if s then -1 else 1) * (m : ℚ) * (2 : ℚ) ^ e
  | _ => 0

/-! ## Vocabulary of the statements -/

section FrameVocabulary

variable {K : Type} [Zero K] [One K] [NatCast K] [Add K] [Sub K] [Mul K] [Div K] [Neg K]
  [OfScientific K]

/-- The Gram-Schmidt residual of lines 125-130 of `draw_arrow`: the array `n` before the second
`normalize_v`, for the direction `d` and the view axis `v`. -/
def residual (d v : Vec3 K) : Vec3 K :=
  ⟨v.x - d.x * scalarproduct_v d v, v.y - d.y * scalarproduct_v d v,
   v.z - d.z * scalarproduct_v d v⟩

/-- A modelview matrix whose view axis (entries 2, 6, 10) is `(1, 1, 1)`. -/
def viewOnes : Mat4 K :=
  ⟨1, 0, 1, 0,
   0, 1, 1, 0,
   0, 0, 1, 0,
   0, 0, 0, 1⟩

/-- The call `draw_arrow(0, 0, 0, 1, 1, 1, 0.1, 0.1, NULL, 0.075)` under the modelview matrix
`viewOnes`: an arrow seen exactly along its own direction `(1, 1, 1)`. -/
def diagArrow (sqrt : K → K) : ArrowDraw K :=
  draw_arrow sqrt (fun _ => 100) (fun _ => 100) viewOnes 0 0 0 1 1 1 0.1 0.1 none 0.075

end FrameVocabulary

section Vocabulary

variable {K : Type} [Field K]

/-- Componentwise difference `a - b`. -/
def Vec3.sub (a b : Vec3 K) : Vec3 K :=
  ⟨a.x - b.x, a.y - b.y, a.z - b.z⟩

/-- Componentwise sum `a + b`. -/
def Vec3.add (a b : Vec3 K) : Vec3 K :=
  ⟨a.x + b.x, a.y + b.y, a.z + b.z⟩

/-- Scalar multiple `c * a`. -/
def Vec3.smul (c : K) (a : Vec3 K) : Vec3 K :=
  ⟨c * a.x, c * a.y, c * a.z⟩

/-- The view axis `draw_arrow` reads from the modelview matrix (line 125). -/
def viewAxis (mv : Mat4 K) : Vec3 K :=
  ⟨mv.m2, mv.m6, mv.m10⟩

/-- The rotation by 90 degrees about the x axis as a modelview matrix; its view axis is
`(0, 1, 0)`. -/
def rotX90 {K : Type} [Zero K] [One K] [Neg K] : Mat4 K :=
  ⟨1, 0, 0, 0,
   0, 0, 1, 0,
   0, -1, 0, 0,
   0, 0, 0, 1⟩

/-- The call `draw_arrow(0, 0, 0, 0, 0, -1, 0.1, 0.1, "near", 0.075)` of the scene (line 287
with `n = 1`) under the modelview matrix `rotX90`, with a stroke font whose characters are all
100 units wide. -/
def demoArrow {K : Type} [Zero K] [One K] [NatCast K] [Add K] [Sub K] [Mul K] [Div K] [Neg K]
    [OfScientific K] (sqrt : K → K) : ArrowDraw K :=
  draw_arrow sqrt (fun _ => 100) (fun _ => 100) rotX90 0 0 0 0 0 (-1) 0.1 0.1 (some "near") 0.075

/-- Componentwise negation `-a`. -/
def Vec3.neg (a : Vec3 K) : Vec3 K :=
  ⟨-a.x, -a.y, -a.z⟩

/-- The determinant of the rotation part (rows and columns 0..2) of a matrix. -/
def Mat4.det3 (m : Mat4 K) : K :=
  m.m0 * (m.m5 * m.m10 - m.m9 * m.m6) - m.m4 * (m.m1 * m.m10 - m.m9 * m.m2)
    + m.m8 * (m.m1 * m.m6 - m.m5 * m.m2)

/-- The arguments of the `draw_arrow` calls among the submissions, in order. -/
def arrowCalls : List (Submission K) → List (ArrowCall K)
  | [] => []
  | .frustum _ :: rest => arrowCalls rest
  | .arrow c _ :: rest => c :: arrowCalls rest

/-- The start point of an arrow call. -/
def ArrowCall.start (c : ArrowCall K) : Vec3 K :=
  ⟨c.ax, c.ay, c.az⟩

/-- The end point of an arrow call. -/
def ArrowCall.stop (c : ArrowCall K) : Vec3 K :=
  ⟨c.bx, c.by', c.bz⟩

/-- An arrow is non-degenerate when its end points differ and the view axis is not a scalar
multiple of `end - start`. -/
def NonDegenerate (mv : Mat4 K) (s e : Vec3 K) : Prop :=
  s ≠ e ∧ ∀ c : K, viewAxis mv ≠ Vec3.smul c (Vec3.sub e s)

end Vocabulary

/-! ## C library `fmodf`, exact -/

section Fmod

variable {K : Type} [LinearOrderedField K] [FloorRing K]

/-- The value ISO C specifies for `fmod(x, y)` in exact arithmetic: `x - q*y`, where `q` is the
quotient `x/y` truncated towards zero. -/
def fmodExact (x y : K) : K :=
  x - (if 0 ≤ x / y then (⌊x / y⌋ : K) else (⌈x / y⌉ : K)) * y

end Fmod


/-! ## Lemmas on the vector math over the reals -/

section RealLemmas

theorem sp_self_nonneg (a : Vec3 ℝ) : 0 ≤ scalarproduct_v a a := by
  simp only [scalarproduct_v, scalarproduct]
  nlinarith [mul_self_nonneg a.x, mul_self_nonneg a.y, mul_self_nonneg a.z]

theorem sp_self_eq_zero (a : Vec3 ℝ) (h : scalarproduct_v a a = 0) : a = ⟨0, 0, 0⟩ := by
  simp only [scalarproduct_v, scalarproduct] at h
  have hx : a.x = 0 := by
    nlinarith [mul_self_nonneg a.x, mul_self_nonneg a.y, mul_self_nonneg a.z]
  have hy : a.y = 0 := by
    nlinarith [mul_self_nonneg a.x, mul_self_nonneg a.y, mul_self_nonneg a.z]
  have hz : a.z = 0 := by
    nlinarith [mul_self_nonneg a.x, mul_self_nonneg a.y, mul_self_nonneg a.z]
  cases a
  simp_all

theorem sp_self_pos (a : Vec3 ℝ) (h : a ≠ ⟨0, 0, 0⟩) : 0 < scalarproduct_v a a :=
  lt_of_le_of_ne (sp_self_nonneg a) (fun h0 => h (sp_self_eq_zero a h0.symm))

theorem length_v_pos (a : Vec3 ℝ) (h : a ≠ ⟨0, 0, 0⟩) : 0 < length_v Real.sqrt a :=
  Real.sqrt_pos.mpr (sp_self_pos a h)

theorem length_v_mul_self (a : Vec3 ℝ) :
    length_v Real.sqrt a * length_v Real.sqrt a = scalarproduct_v a a :=
  Real.mul_self_sqrt (sp_self_nonneg a)

/-- The scalar product of two normalised vectors, in terms of the original ones. -/
theorem sp_normalize_v (a c : Vec3 ℝ) :
    scalarproduct_v (normalize_v Real.sqrt a) c
      = (1 / length_v Real.sqrt a) * scalarproduct_v a c := by
  simp only [normalize_v, scalarproduct_v, scalarproduct]
  ring

theorem sp_comm (a c : Vec3 ℝ) : scalarproduct_v a c = scalarproduct_v c a := by
  simp only [scalarproduct_v, scalarproduct]
  ring

theorem normalize_v_unit (a : Vec3 ℝ) (h : a ≠ ⟨0, 0, 0⟩) :
    scalarproduct_v (normalize_v Real.sqrt a) (normalize_v Real.sqrt a) = 1 := by
  rw [sp_normalize_v, sp_comm, sp_normalize_v, ← length_v_mul_self]
  have hL := (length_v_pos a h).ne'
  field_simp

theorem length_v_of_unit (a : Vec3 ℝ) (h : scalarproduct_v a a = 1) :
    length_v Real.sqrt a = 1 := by
  simp only [length_v, h, Real.sqrt_one]

end RealLemmas


section FrameLemmas

/-- Gram-Schmidt: removing from `v` its component along a unit vector `d` leaves a vector
orthogonal to `d`. -/
theorem sp_residual (d v : Vec3 ℝ) (hd : scalarproduct_v d d = 1) :
    scalarproduct_v d
      ⟨v.x - d.x * scalarproduct_v d v, v.y - d.y * scalarproduct_v d v,
       v.z - d.z * scalarproduct_v d v⟩ = 0 := by
  simp only [scalarproduct_v, scalarproduct] at hd ⊢
  linear_combination (-(d.x * v.x + d.y * v.y + d.z * v.z)) * hd

theorem sp_normalize_v_right (a c : Vec3 ℝ) :
    scalarproduct_v c (normalize_v Real.sqrt a)
      = (1 / length_v Real.sqrt a) * scalarproduct_v c a := by
  simp only [normalize_v, scalarproduct_v, scalarproduct]
  ring

/-- The normalised Gram-Schmidt residual is orthogonal to `d` as well. -/
theorem sp_normalized_residual (d v : Vec3 ℝ) (hd : scalarproduct_v d d = 1) :
    scalarproduct_v d
      (normalize_v Real.sqrt
        ⟨v.x - d.x * scalarproduct_v d v, v.y - d.y * scalarproduct_v d v,
         v.z - d.z * scalarproduct_v d v⟩) = 0 := by
  rw [sp_normalize_v_right, sp_residual d v hd, mul_zero]

theorem cross_sp_left (n d : Vec3 ℝ) : scalarproduct_v d (crossproduct_v n d) = 0 := by
  simp only [scalarproduct_v, scalarproduct, crossproduct_v, crossproduct]
  ring

theorem cross_sp_right (n d : Vec3 ℝ) : scalarproduct_v (crossproduct_v n d) n = 0 := by
  simp only [scalarproduct_v, scalarproduct, crossproduct_v, crossproduct]
  ring

/-- Lagrange's identity for the cross product. -/
theorem cross_sp_self (n d : Vec3 ℝ) :
    scalarproduct_v (crossproduct_v n d) (crossproduct_v n d)
      = scalarproduct_v n n * scalarproduct_v d d - scalarproduct_v d n * scalarproduct_v d n := by
  simp only [scalarproduct_v, scalarproduct, crossproduct_v, crossproduct]
  ring

theorem direction_ne_zero (ax ay az bx by' bz : ℝ)
    (h : (⟨ax, ay, az⟩ : Vec3 ℝ) ≠ ⟨bx, by', bz⟩) :
    (⟨bx - ax, by' - ay, bz - az⟩ : Vec3 ℝ) ≠ ⟨0, 0, 0⟩ := by
  intro h0
  apply h
  simp only [Vec3.mk.injEq] at h0 ⊢
  obtain ⟨h1, h2, h3⟩ := h0
  exact ⟨by linarith, by linarith, by linarith⟩

/-- The Gram-Schmidt residual of the view axis is nonzero for a non-degenerate arrow. -/
theorem residual_ne_zero (mv : Mat4 ℝ) (ax ay az bx by' bz : ℝ)
    (h : NonDegenerate mv ⟨ax, ay, az⟩ ⟨bx, by', bz⟩) :
    let d := normalize_v Real.sqrt ⟨bx - ax, by' - ay, bz - az⟩
    let s := scalarproduct_v d ⟨mv.m2, mv.m6, mv.m10⟩
    (⟨mv.m2 - d.x * s, mv.m6 - d.y * s, mv.m10 - d.z * s⟩ : Vec3 ℝ) ≠ ⟨0, 0, 0⟩ := by
  intro d s h0
  simp only [Vec3.mk.injEq] at h0
  obtain ⟨h1, h2, h3⟩ := h0
  apply h.2 (1 / length_v Real.sqrt ⟨bx - ax, by' - ay, bz - az⟩ * s)
  simp only [viewAxis, Vec3.smul, Vec3.sub, Vec3.mk.injEq]
  simp only [d, normalize_v] at h1 h2 h3
  exact ⟨by linear_combination h1, by linear_combination h2, by linear_combination h3⟩

/-- The core facts on the frame of `draw_arrow`: `d`, `n`, `b` are unit and pairwise
orthogonal, and `b = cross(n, d)`. -/
theorem arrow_frame (wd adv : Char → ℝ) (mv : Mat4 ℝ) (ax ay az bx by' bz ah bh : ℝ)
    (ann : Option String) (sz : ℝ) (h : NonDegenerate mv ⟨ax, ay, az⟩ ⟨bx, by', bz⟩)
    (A : ArrowDraw ℝ) (hA : A = draw_arrow Real.sqrt wd adv mv ax ay az bx by' bz ah bh ann sz) :
    scalarproduct_v A.d A.d = 1 ∧ scalarproduct_v A.n A.n = 1 ∧ scalarproduct_v A.b A.b = 1 ∧
      scalarproduct_v A.d A.n = 0 ∧ scalarproduct_v A.d A.b = 0 ∧ scalarproduct_v A.b A.n = 0 ∧
      A.b = crossproduct_v A.n A.d := by
  subst hA
  have hd : scalarproduct_v (draw_arrow Real.sqrt wd adv mv ax ay az bx by' bz ah bh ann sz).d
      (draw_arrow Real.sqrt wd adv mv ax ay az bx by' bz ah bh ann sz).d = 1 :=
    normalize_v_unit _ (direction_ne_zero ax ay az bx by' bz h.1)
  have hn : scalarproduct_v (draw_arrow Real.sqrt wd adv mv ax ay az bx by' bz ah bh ann sz).n
      (draw_arrow Real.sqrt wd adv mv ax ay az bx by' bz ah bh ann sz).n = 1 :=
    normalize_v_unit _ (residual_ne_zero mv ax ay az bx by' bz h)
  have hdn := sp_normalized_residual
    (draw_arrow Real.sqrt wd adv mv ax ay az bx by' bz ah bh ann sz).d ⟨mv.m2, mv.m6, mv.m10⟩ hd
  have hb : (draw_arrow Real.sqrt wd adv mv ax ay az bx by' bz ah bh ann sz).b
      = crossproduct_v (draw_arrow Real.sqrt wd adv mv ax ay az bx by' bz ah bh ann sz).n
          (draw_arrow Real.sqrt wd adv mv ax ay az bx by' bz ah bh ann sz).d := rfl
  refine ⟨hd, hn, ?_, hdn, ?_, ?_, hb⟩
  · rw [hb, cross_sp_self, hd, hn]
    have h0 : scalarproduct_v (draw_arrow Real.sqrt wd adv mv ax ay az bx by' bz ah bh ann sz).d
      (draw_arrow Real.sqrt wd adv mv ax ay az bx by' bz ah bh ann sz).n = 0 := hdn
    rw [h0]
    norm_num
  · rw [hb]
    exact cross_sp_left _ _
  · rw [hb]
    exact cross_sp_right _ _

/-- The length of an offset `(c1*d + c2*b)*r` in an orthonormal pair `d`, `b`. -/
theorem offset_length (d b w : Vec3 ℝ) (hd : scalarproduct_v d d = 1)
    (hb : scalarproduct_v b b = 1) (hdb : scalarproduct_v d b = 0) (c1 c2 r : ℝ) (hr : 0 ≤ r)
    (hx : w.x = (c1 * d.x + c2 * b.x) * r) (hy : w.y = (c1 * d.y + c2 * b.y) * r)
    (hz : w.z = (c1 * d.z + c2 * b.z) * r) :
    length_v Real.sqrt w = r * Real.sqrt (c1 * c1 + c2 * c2) := by
  have hw : scalarproduct_v w w = r * r * (c1 * c1 + c2 * c2) := by
    simp only [scalarproduct_v, scalarproduct] at hd hb hdb ⊢
    rw [hx, hy, hz]
    linear_combination (r * r * c1 * c1) * hd + (r * r * c2 * c2) * hb
      + (2 * r * r * c1 * c2) * hdb
  have hc : 0 ≤ c1 * c1 + c2 * c2 := by nlinarith [mul_self_nonneg c1, mul_self_nonneg c2]
  rw [length_v, hw, Real.sqrt_mul (mul_self_nonneg r), Real.sqrt_mul_self hr]

/-- The frame of `demoArrow`, evaluated. -/
theorem demoArrow_frame :
    (demoArrow Real.sqrt).d = ⟨0, 0, -1⟩ ∧ (demoArrow Real.sqrt).n = ⟨0, 1, 0⟩ ∧
    (demoArrow Real.sqrt).b = ⟨-1, 0, 0⟩ := by
  simp [demoArrow, draw_arrow, normalize_v, length_v, scalarproduct_v, scalarproduct,
    crossproduct_v, crossproduct, rotX90]

theorem sqrt_wing_bounds :
    (0.99997 : ℝ) < Real.sqrt 0.999956 ∧ Real.sqrt 0.999956 < 1 := by
  constructor
  · rw [Real.lt_sqrt (by norm_num)]
    norm_num
  · rw [Real.sqrt_lt' (by norm_num)]
    norm_num

/-- Expansion of `(n × d) × n`, which is `d` for unit `n` orthogonal to `d`. -/
theorem cross_cross_left (n d : Vec3 ℝ) (hn : scalarproduct_v n n = 1)
    (hdn : scalarproduct_v d n = 0) :
    crossproduct_v (crossproduct_v n d) n = d := by
  simp only [scalarproduct_v, scalarproduct] at hn hdn
  cases d with
  | mk dx dy dz =>
    simp only [crossproduct_v, crossproduct, Vec3.mk.injEq] at hn hdn ⊢
    refine ⟨?_, ?_, ?_⟩
    · linear_combination dx * hn - n.x * hdn
    · linear_combination dy * hn - n.y * hdn
    · linear_combination dz * hn - n.z * hdn

/-- Expansion of `d × (n × d)`, which is `n` for unit `d` orthogonal to `n`. -/
theorem cross_cross_right (n d : Vec3 ℝ) (hd : scalarproduct_v d d = 1)
    (hdn : scalarproduct_v d n = 0) :
    crossproduct_v d (crossproduct_v n d) = n := by
  simp only [scalarproduct_v, scalarproduct] at hd hdn
  cases n with
  | mk nx ny nz =>
    simp only [crossproduct_v, crossproduct, Vec3.mk.injEq] at hd hdn ⊢
    refine ⟨?_, ?_, ?_⟩
    · linear_combination nx * hd - d.x * hdn
    · linear_combination ny * hd - d.y * hdn
    · linear_combination nz * hd - d.z * hdn

theorem residual_sp_self (d v : Vec3 ℝ) (hd : scalarproduct_v d d = 1) :
    scalarproduct_v (residual d v) v = scalarproduct_v (residual d v) (residual d v) := by
  simp only [scalarproduct_v, scalarproduct, residual] at hd ⊢
  linear_combination (-(d.x * v.x + d.y * v.y + d.z * v.z) ^ 2) * hd

theorem residual_eq_zero_iff (d v : Vec3 ℝ) (hd : scalarproduct_v d d = 1) :
    residual d v = ⟨0, 0, 0⟩ ↔ ∃ c : ℝ, v = Vec3.smul c d := by
  constructor
  · intro h
    refine ⟨scalarproduct_v d v, ?_⟩
    simp only [residual, Vec3.mk.injEq] at h
    obtain ⟨h1, h2, h3⟩ := h
    cases v with
    | mk vx vy vz =>
      simp only [Vec3.smul, Vec3.mk.injEq]
      exact ⟨by linear_combination h1, by linear_combination h2, by linear_combination h3⟩
  · rintro ⟨c, rfl⟩
    simp only [scalarproduct_v, scalarproduct] at hd
    simp only [residual, scalarproduct_v, scalarproduct, Vec3.smul, Vec3.mk.injEq]
    refine ⟨?_, ?_, ?_⟩
    · linear_combination (-(c * d.x)) * hd
    · linear_combination (-(c * d.y)) * hd
    · linear_combination (-(c * d.z)) * hd

theorem length_v_eq_zero_iff (a : Vec3 ℝ) : length_v Real.sqrt a = 0 ↔ a = ⟨0, 0, 0⟩ := by
  constructor
  · intro h
    by_contra hne
    exact (length_v_pos a hne).ne' h
  · rintro rfl
    simp [length_v, scalarproduct_v, scalarproduct]

/-- The components in the frame `(d, b, n)` of an offset `(c1*d + c2*b)*r`. -/
theorem offset_components (d b n w : Vec3 ℝ) (hd : scalarproduct_v d d = 1)
    (hb : scalarproduct_v b b = 1) (hdn : scalarproduct_v d n = 0)
    (hdb : scalarproduct_v d b = 0) (hbn : scalarproduct_v b n = 0) (c1 c2 r : ℝ)
    (hx : w.x = (c1 * d.x + c2 * b.x) * r) (hy : w.y = (c1 * d.y + c2 * b.y) * r)
    (hz : w.z = (c1 * d.z + c2 * b.z) * r) :
    scalarproduct_v w n = 0 ∧ scalarproduct_v w d = c1 * r ∧ scalarproduct_v w b = c2 * r := by
  simp only [scalarproduct_v, scalarproduct] at hd hb hdn hdb hbn ⊢
  rw [hx, hy, hz]
  refine ⟨?_, ?_, ?_⟩
  · linear_combination (r * c1) * hdn + (r * c2) * hbn
  · linear_combination (r * c1) * hd + (r * c2) * hdb
  · linear_combination (r * c1) * hdb + (r * c2) * hb

theorem normalize_v_smul (a : Vec3 ℝ) :
    normalize_v Real.sqrt a = Vec3.smul (1 / length_v Real.sqrt a) a := by
  simp only [normalize_v, Vec3.smul, Vec3.mk.injEq]
  exact ⟨mul_comm _ _, mul_comm _ _, mul_comm _ _⟩

/-- The scalar product of the normalised residual with the view axis is the length of the
residual. -/
theorem sp_normal_view (d v : Vec3 ℝ) (hd : scalarproduct_v d d = 1)
    (hr : residual d v ≠ ⟨0, 0, 0⟩) :
    scalarproduct_v (normalize_v Real.sqrt (residual d v)) v
      = length_v Real.sqrt (residual d v) := by
  have hL := (length_v_pos _ hr).ne'
  rw [sp_normalize_v, residual_sp_self d v hd, ← length_v_mul_self]
  field_simp

end FrameLemmas


section LabelLemmas

/-- The width loop of lines 168-170 computes the sum of the character widths. -/
theorem foldl_width (wd : Char → ℝ) (cs : List Char) (w0 : ℝ) :
    cs.foldl (fun w c => w + wd c) w0 = w0 + (cs.map wd).sum := by
  induction cs generalizing w0 with
  | nil => simp
  | cons c cs ih => simp [ih, add_assoc]

theorem Mat4.mul_assoc (a b c : Mat4 ℝ) : (a.mul b).mul c = a.mul (b.mul c) := by
  simp only [Mat4.mul, Mat4.mk.injEq]
  refine ⟨?_, ?_, ?_, ?_, ?_, ?_, ?_, ?_, ?_, ?_, ?_, ?_, ?_, ?_, ?_, ?_⟩ <;> ring

end LabelLemmas

section SceneLemmas

theorem fmodExact_eq_fract (x y : ℝ) (hx : 0 ≤ x) (hy : 0 < y) :
    fmodExact x y = Int.fract (x / y) * y := by
  have hq : 0 ≤ x / y := div_nonneg hx hy.le
  simp only [fmodExact, if_pos hq, Int.fract]
  field_simp
  ring

/-- For `x ≥ 0` and `y > 0` the value of `fmod(x, y)` lies in `[0, y)`. -/
theorem fmodExact_range (x y : ℝ) (hx : 0 ≤ x) (hy : 0 < y) :
    0 ≤ fmodExact x y ∧ fmodExact x y < y := by
  rw [fmodExact_eq_fract x y hx hy]
  constructor
  · exact mul_nonneg (Int.fract_nonneg _) hy.le
  · calc Int.fract (x / y) * y < 1 * y := mul_lt_mul_of_pos_right (Int.fract_lt_one _) hy
      _ = y := one_mul y

theorem fmodExact_of_lt (x y : ℝ) (hx : 0 ≤ x) (hxy : x < y) : fmodExact x y = x := by
  have hy : 0 < y := lt_of_le_of_lt hx hxy
  rw [fmodExact_eq_fract x y hx hy, Int.fract_eq_self.mpr ⟨div_nonneg hx hy.le,
    (div_lt_one hy).mpr hxy⟩]
  field_simp

theorem strokeChars_chars (adv : Char → ℝ) (m : Mat4 ℝ) (cs : List Char) :
    (strokeChars adv m cs).map Prod.snd = cs := by
  induction cs generalizing m with
  | nil => rfl
  | cons c cs ih => simp [strokeChars, ih]

/-- A call of `draw_arrow` with a label strokes exactly the characters of the label. -/
theorem arrow_label_strokes (wd adv : Char → ℝ) (mv : Mat4 ℝ) (ax ay az bx by' bz ah bh : ℝ)
    (str : String) (sz : ℝ) :
    ∃ L : ArrowLabel ℝ,
      (draw_arrow Real.sqrt wd adv mv ax ay az bx by' bz ah bh (some str) sz).label = some L ∧
      L.text.strokes.map Prod.snd = str.toList :=
  ⟨_, rfl, strokeChars_chars _ _ _⟩

/-- The view axis of the scene: row 2 of `rotateX(30) * rotateY(alpha)`. -/
theorem scene_viewAxis (fm : ℝ → ℝ → ℝ) (wd adv : Char → ℝ) (alpha : ℝ) :
    viewAxis (display_observer Real.sqrt (fun a => Real.cos (a * Real.pi / 180))
      (fun a => Real.sin (a * Real.pi / 180)) fm wd adv alpha).mv
      = ⟨-(Real.cos (30 * Real.pi / 180) * Real.sin (alpha * Real.pi / 180)),
         Real.sin (30 * Real.pi / 180),
         Real.cos (30 * Real.pi / 180) * Real.cos (alpha * Real.pi / 180)⟩ := by
  simp [viewAxis, display_observer, glRotatef, glTranslatef, Mat4.mul, Mat4.identity,
    Mat4.translation]

theorem sin_thirty : Real.sin (30 * Real.pi / 180) = 1 / 2 := by
  rw [show (30 : ℝ) * Real.pi / 180 = Real.pi / 6 by ring]
  exact Real.sin_pi_div_six

theorem cos_thirty_pos : 0 < Real.cos (30 * Real.pi / 180) := by
  rw [show (30 : ℝ) * Real.pi / 180 = Real.pi / 6 by ring, Real.cos_pi_div_six]
  positivity

/-- An arrow along the x or the z axis is non-degenerate when the view axis has a nonzero y
component. -/
theorem nonDegenerate_of_y (mv : Mat4 ℝ) (s e : Vec3 ℝ) (hse : s ≠ e) (hy : e.y - s.y = 0)
    (hv : (viewAxis mv).y ≠ 0) : NonDegenerate mv s e := by
  refine ⟨hse, fun c hc => hv ?_⟩
  have h2 := congrArg Vec3.y hc
  simp only [Vec3.smul, Vec3.sub, hy, mul_zero] at h2
  exact h2

/-- An arrow along the y axis is non-degenerate when the x and z components of the view axis do
not vanish together. -/
theorem nonDegenerate_of_xz (mv : Mat4 ℝ) (s e : Vec3 ℝ) (hse : s ≠ e) (hx : e.x - s.x = 0)
    (hz : e.z - s.z = 0) (hv : ¬ ((viewAxis mv).x = 0 ∧ (viewAxis mv).z = 0)) :
    NonDegenerate mv s e := by
  refine ⟨hse, fun c hc => hv ⟨?_, ?_⟩⟩
  · have h2 := congrArg Vec3.x hc
    simp only [Vec3.smul, Vec3.sub, hx, mul_zero] at h2
    exact h2
  · have h2 := congrArg Vec3.z hc
    simp only [Vec3.smul, Vec3.sub, hz, mul_zero] at h2
    exact h2

/-- For a non-degenerate arrow both `normalize_v` calls of `draw_arrow` divide by a nonzero
length. -/
theorem arrow_lengths_ne_zero (wd adv : Char → ℝ) (mv : Mat4 ℝ) (c : ArrowCall ℝ)
    (h : NonDegenerate mv c.start c.stop) :
    length_v Real.sqrt (Vec3.sub c.stop c.start) ≠ 0 ∧
    length_v Real.sqrt (residual
      (draw_arrow Real.sqrt wd adv mv c.ax c.ay c.az c.bx c.by' c.bz c.ah c.bh c.annot
        c.annot_size).d (viewAxis mv)) ≠ 0 :=
  ⟨(length_v_pos _ (direction_ne_zero c.ax c.ay c.az c.bx c.by' c.bz h.1)).ne',
   (length_v_pos _ (residual_ne_zero mv c.ax c.ay c.az c.bx c.by' c.bz h)).ne'⟩

/-- Every arrow of the scene is non-degenerate, for every orbit angle. -/
theorem scene_nonDegenerate (fm : ℝ → ℝ → ℝ) (wd adv : Char → ℝ) (alpha : ℝ) (c : ArrowCall ℝ)
    (hc : c ∈ arrowCalls (display_observer Real.sqrt (fun a => Real.cos (a * Real.pi / 180))
      (fun a => Real.sin (a * Real.pi / 180)) fm wd adv alpha).submissions) :
    NonDegenerate (display_observer Real.sqrt (fun a => Real.cos (a * Real.pi / 180))
      (fun a => Real.sin (a * Real.pi / 180)) fm wd adv alpha).mv c.start c.stop := by
  have hv := scene_viewAxis fm wd adv alpha
  have hy : (viewAxis (display_observer Real.sqrt (fun a => Real.cos (a * Real.pi / 180))
      (fun a => Real.sin (a * Real.pi / 180)) fm wd adv alpha).mv).y ≠ 0 := by
    rw [hv]
    show Real.sin (30 * Real.pi / 180) ≠ 0
    rw [sin_thirty]
    norm_num
  have hxz : ¬ ((viewAxis (display_observer Real.sqrt (fun a => Real.cos (a * Real.pi / 180))
      (fun a => Real.sin (a * Real.pi / 180)) fm wd adv alpha).mv).x = 0 ∧
      (viewAxis (display_observer Real.sqrt (fun a => Real.cos (a * Real.pi / 180))
      (fun a => Real.sin (a * Real.pi / 180)) fm wd adv alpha).mv).z = 0) := by
    rw [hv]
    rintro ⟨h1, h2⟩
    have h1' : Real.cos (30 * Real.pi / 180) * Real.sin (alpha * Real.pi / 180) = 0 :=
      neg_eq_zero.mp h1
    have h2' : Real.cos (30 * Real.pi / 180) * Real.cos (alpha * Real.pi / 180) = 0 := h2
    have hs := (mul_eq_zero.mp h1').resolve_left cos_thirty_pos.ne'
    have hc' := (mul_eq_zero.mp h2').resolve_left cos_thirty_pos.ne'
    have := Real.sin_sq_add_cos_sq (alpha * Real.pi / 180)
    rw [hs, hc'] at this
    norm_num at this
  have hcalls : arrowCalls (display_observer Real.sqrt (fun a => Real.cos (a * Real.pi / 180))
      (fun a => Real.sin (a * Real.pi / 180)) fm wd adv alpha).submissions
      = [⟨0, 0, 0, 0, 0, -1, 0.1, 0.1, some "near", 0.075⟩,
         ⟨-0.5, 0, -1, 0, 0, -1, 0.1, 0, some "left", 0.075⟩,
         ⟨0, 0, -1, 0.5, 0, -1, 0, 0.1, some "right", 0.075⟩,
         ⟨0, -0.5, -1, 0, 0, -1, 0.1, 0, some "bottom", 0.075⟩,
         ⟨0, 0, -1, 0, 0.5, -1, 0, 0.1, some "top", 0.075⟩] := rfl
  rw [hcalls] at hc
  simp only [List.mem_cons, List.mem_singleton, List.not_mem_nil, or_false] at hc
  rcases hc with rfl | rfl | rfl | rfl | rfl
  · exact nonDegenerate_of_y _ _ _
      (by simp only [ArrowCall.start, ArrowCall.stop, ne_eq, Vec3.mk.injEq]; norm_num)
      (by simp only [ArrowCall.start, ArrowCall.stop]; norm_num) hy
  · exact nonDegenerate_of_y _ _ _
      (by simp only [ArrowCall.start, ArrowCall.stop, ne_eq, Vec3.mk.injEq]; norm_num)
      (by simp only [ArrowCall.start, ArrowCall.stop]; norm_num) hy
  · exact nonDegenerate_of_y _ _ _
      (by simp only [ArrowCall.start, ArrowCall.stop, ne_eq, Vec3.mk.injEq]; norm_num)
      (by simp only [ArrowCall.start, ArrowCall.stop]; norm_num) hy
  · exact nonDegenerate_of_xz _ _ _
      (by simp only [ArrowCall.start, ArrowCall.stop, ne_eq, Vec3.mk.injEq]; norm_num)
      (by simp only [ArrowCall.start, ArrowCall.stop]; norm_num)
      (by simp only [ArrowCall.start, ArrowCall.stop]; norm_num) hxz
  · exact nonDegenerate_of_xz _ _ _
      (by simp only [ArrowCall.start, ArrowCall.stop, ne_eq, Vec3.mk.injEq]; norm_num)
      (by simp only [ArrowCall.start, ArrowCall.stop]; norm_num)
      (by simp only [ArrowCall.start, ArrowCall.stop]; norm_num) hxz

theorem mem_arrowCalls (subs : List (Submission ℝ)) (c : ArrowCall ℝ) (g : ArrowDraw ℝ)
    (h : Submission.arrow c g ∈ subs) : c ∈ arrowCalls subs := by
  induction subs with
  | nil => simp at h
  | cons x xs ih =>
    cases x with
    | frustum D =>
      simp only [List.mem_cons, reduceCtorEq, false_or] at h
      exact ih h
    | arrow c' g' =>
      simp only [List.mem_cons, Submission.arrow.injEq] at h
      rcases h with ⟨rfl, -⟩ | h
      · simp [arrowCalls]
      · simp only [arrowCalls, List.mem_cons]
        exact Or.inr (ih h)

/-- Every arrow geometry of a frame is the result of `draw_arrow` on its recorded arguments,
under the modelview matrix of the frame. -/
theorem scene_arrow_geometry (cosDeg sinDeg : ℝ → ℝ) (fm : ℝ → ℝ → ℝ) (wd adv : Char → ℝ)
    (alpha : ℝ) (c : ArrowCall ℝ) (g : ArrowDraw ℝ)
    (h : Submission.arrow c g
      ∈ (display_observer Real.sqrt cosDeg sinDeg fm wd adv alpha).submissions) :
    g = draw_arrow Real.sqrt wd adv (display_observer Real.sqrt cosDeg sinDeg fm wd adv alpha).mv
      c.ax c.ay c.az c.bx c.by' c.bz c.ah c.bh c.annot c.annot_size := by
  simp only [display_observer, List.mem_cons, List.mem_singleton, Submission.arrow.injEq,
    List.not_mem_nil, or_false, false_or, reduceCtorEq] at h
  rcases h with ⟨rfl, rfl⟩ | ⟨rfl, rfl⟩ | ⟨rfl, rfl⟩ | ⟨rfl, rfl⟩ | ⟨rfl, rfl⟩ <;> rfl

end SceneLemmas

section Claims

theorem demo_nonDegenerate : NonDegenerate (rotX90 : Mat4 ℝ) ⟨0, 0, 0⟩ ⟨0, 0, -1⟩ := by
  refine ⟨by simp, fun c hc => ?_⟩
  simp [viewAxis, rotX90, Vec3.smul, Vec3.sub] at hc

/-- C1: for a non-degenerate arrow the frame of `draw_arrow`, `d = normalize(end - start)`,
`n = normalize(v - d*dot(d, v))`, `b = cross(n, d)`, is orthonormal in exact real arithmetic. -/
theorem C1_frame_orthonormal (wd adv : Char → ℝ) (mv : Mat4 ℝ) (ax ay az bx by' bz ah bh : ℝ)
    (ann : Option String) (sz : ℝ) (h : NonDegenerate mv ⟨ax, ay, az⟩ ⟨bx, by', bz⟩)
    (A : ArrowDraw ℝ) (hA : A = draw_arrow Real.sqrt wd adv mv ax ay az bx by' bz ah bh ann sz) :
    A.d = normalize_v Real.sqrt (Vec3.sub ⟨bx, by', bz⟩ ⟨ax, ay, az⟩) ∧
    A.n = normalize_v Real.sqrt
      (Vec3.sub (viewAxis mv) (Vec3.smul (scalarproduct_v A.d (viewAxis mv)) A.d)) ∧
    A.b = crossproduct_v A.n A.d ∧
    scalarproduct_v A.d A.b = 0 ∧ scalarproduct_v A.d A.n = 0 ∧ scalarproduct_v A.b A.n = 0 ∧
    length_v Real.sqrt A.d = 1 ∧ length_v Real.sqrt A.b = 1 ∧ length_v Real.sqrt A.n = 1 := by
  subst hA
  obtain ⟨hd, hn, hbb, hdn, hdb, hbn, hb⟩ :=
    arrow_frame wd adv mv ax ay az bx by' bz ah bh ann sz h _ rfl
  refine ⟨rfl, ?_, hb, hdb, hdn, hbn, length_v_of_unit _ hd, length_v_of_unit _ hbb,
    length_v_of_unit _ hn⟩
  show normalize_v Real.sqrt _ = normalize_v Real.sqrt _
  congr 1
  simp only [Vec3.sub, Vec3.smul, viewAxis, Vec3.mk.injEq]
  exact ⟨by rw [mul_comm]; rfl, by rw [mul_comm]; rfl, by rw [mul_comm]; rfl⟩

/-- C1 at the arrow `demoArrow`: its frame is orthonormal. -/
theorem C1_frame_orthonormal_witness :
    NonDegenerate (rotX90 : Mat4 ℝ) ⟨0, 0, 0⟩ ⟨0, 0, -1⟩ ∧
    scalarproduct_v (demoArrow Real.sqrt).d (demoArrow Real.sqrt).b = 0 ∧
    scalarproduct_v (demoArrow Real.sqrt).d (demoArrow Real.sqrt).n = 0 ∧
    scalarproduct_v (demoArrow Real.sqrt).b (demoArrow Real.sqrt).n = 0 ∧
    length_v Real.sqrt (demoArrow Real.sqrt).d = 1 ∧
    length_v Real.sqrt (demoArrow Real.sqrt).b = 1 ∧
    length_v Real.sqrt (demoArrow Real.sqrt).n = 1 :=
  ⟨demo_nonDegenerate,
   (C1_frame_orthonormal (fun _ => 100) (fun _ => 100) rotX90 0 0 0 0 0 (-1) 0.1 0.1
      (some "near") 0.075 demo_nonDegenerate (demoArrow Real.sqrt) rfl).2.2.2⟩

/-- C2: for `n ≠ 0`, `draw_frustum` builds 9 vertices: the apex at the origin, the near corners
`(l,b,-n)`, `(r,b,-n)`, `(r,t,-n)`, `(l,t,-n)`, and far corners equal to `f/n` times the matching
near corner (x and y scaled by `f/n`, z equal to `-f`), hence collinear with it and the apex; on
the demonstration extents the far corners are `(±2, ±2, -4)`. -/
theorem C2_frustum_vertices (l r b t n f : ℝ) (hn : n ≠ 0) :
    (draw_frustum l r b t n f).pos =
      [⟨0, 0, 0⟩, ⟨l, b, -n⟩, ⟨r, b, -n⟩, ⟨r, t, -n⟩, ⟨l, t, -n⟩,
       ⟨f/n*l, f/n*b, -f⟩, ⟨f/n*r, f/n*b, -f⟩, ⟨f/n*r, f/n*t, -f⟩, ⟨f/n*l, f/n*t, -f⟩] ∧
    (draw_frustum l r b t n f).pos.length = 9 ∧
    (∀ i, 1 ≤ i → i ≤ 4 → ∃ p q, (draw_frustum l r b t n f).pos[i]? = some p ∧
      (draw_frustum l r b t n f).pos[i + 4]? = some q ∧
      q = Vec3.smul (f/n) p ∧
      Vec3.sub q ⟨0, 0, 0⟩ = Vec3.smul (f/n) (Vec3.sub p ⟨0, 0, 0⟩)) ∧
    (draw_frustum (-0.5) 0.5 (-0.5) 0.5 1 4 : FrustumDraw ℝ).pos =
      [⟨0, 0, 0⟩, ⟨-0.5, -0.5, -1⟩, ⟨0.5, -0.5, -1⟩, ⟨0.5, 0.5, -1⟩, ⟨-0.5, 0.5, -1⟩,
       ⟨-2, -2, -4⟩, ⟨2, -2, -4⟩, ⟨2, 2, -4⟩, ⟨-2, 2, -4⟩] := by
  have hz : f / n * -n = -f := by field_simp
  refine ⟨rfl, rfl, ?_, ?_⟩
  · intro i h1 h4
    interval_cases i
    · exact ⟨⟨l, b, -n⟩, ⟨f/n*l, f/n*b, -f⟩, rfl, rfl, by simp [Vec3.smul, hz],
        by simp [Vec3.smul, Vec3.sub, hz]⟩
    · exact ⟨⟨r, b, -n⟩, ⟨f/n*r, f/n*b, -f⟩, rfl, rfl, by simp [Vec3.smul, hz],
        by simp [Vec3.smul, Vec3.sub, hz]⟩
    · exact ⟨⟨r, t, -n⟩, ⟨f/n*r, f/n*t, -f⟩, rfl, rfl, by simp [Vec3.smul, hz],
        by simp [Vec3.smul, Vec3.sub, hz]⟩
    · exact ⟨⟨l, t, -n⟩, ⟨f/n*l, f/n*t, -f⟩, rfl, rfl, by simp [Vec3.smul, hz],
        by simp [Vec3.smul, Vec3.sub, hz]⟩
  · simp only [draw_frustum]
    norm_num

/-- C2 at the demonstration frustum `l=-0.5, r=0.5, b=-0.5, t=0.5, n=1, f=4`. -/
theorem C2_frustum_vertices_witness :
    (1 : ℝ) ≠ 0 ∧
    (draw_frustum (-0.5) 0.5 (-0.5) 0.5 1 4 : FrustumDraw ℝ).pos.length = 9 :=
  ⟨one_ne_zero, (C2_frustum_vertices (-0.5) 0.5 (-0.5) 0.5 1 4 one_ne_zero).2.1⟩

/-- C3: `draw_frustum` draws 16 segments over its 9 vertices: the 4 tip edges `{0, i}` and the
12 volume edges, namely the near-to-far edges `{i, i+4}`, the near rectangle 1-2-3-4-1 and the far
rectangle 5-6-7-8-5 (`i = 1..4`); every index is below 9 and no edge occurs twice. -/
theorem C3_frustum_edges (l r b t n f : ℝ) :
    (draw_frustum l r b t n f).pos.length = 9 ∧
    ((draw_frustum l r b t n f).tip ++ (draw_frustum l r b t n f).vol).length = 16 ∧
    (draw_frustum l r b t n f).tip.length = 4 ∧ (draw_frustum l r b t n f).vol.length = 12 ∧
    (draw_frustum l r b t n f).tip = (List.range' 1 4).map (fun i => (0, i)) ∧
    (draw_frustum l r b t n f).vol = (List.range' 1 4).map (fun i => (i, i + 4))
      ++ [(1, 2), (2, 3), (3, 4), (4, 1)] ++ [(5, 6), (6, 7), (7, 8), (8, 5)] ∧
    (∀ e ∈ (draw_frustum l r b t n f).tip ++ (draw_frustum l r b t n f).vol, e.1 < 9 ∧ e.2 < 9) ∧
    (((draw_frustum l r b t n f).tip ++ (draw_frustum l r b t n f).vol).map
      (fun e => s(e.1, e.2))).Nodup := by
  have ht : (draw_frustum l r b t n f).tip = [(0, 1), (0, 2), (0, 3), (0, 4)] := rfl
  have hv : (draw_frustum l r b t n f).vol = [(1, 5), (2, 6), (3, 7), (4, 8), (1, 2), (2, 3),
      (3, 4), (4, 1), (5, 6), (6, 7), (7, 8), (8, 5)] := rfl
  rw [ht, hv]
  refine ⟨rfl, rfl, rfl, rfl, by decide, by decide, by decide, by decide⟩

/-- C4, as stated, fails: on `start = (0,0,0)`, `end = (0,0,-1)`, `ah = bh = 0.1` (view axis
`(0,1,0)`) the first start-wing vertex is `(-0.05, 0, -0.0866)`, whose distance from `start` is
not `0.1`. -/
theorem C4_wing_distance_counterexample :
    NonDegenerate (rotX90 : Mat4 ℝ) ⟨0, 0, 0⟩ ⟨0, 0, -1⟩ ∧
    (demoArrow Real.sqrt).pos[2]? = some ⟨-0.05, 0, -0.0866⟩ ∧
    length_v Real.sqrt (Vec3.sub (⟨-0.05, 0, -0.0866⟩ : Vec3 ℝ) ⟨0, 0, 0⟩) ≠ 0.1 := by
  obtain ⟨hd, hn, hb⟩ := demoArrow_frame
  refine ⟨demo_nonDegenerate, ?_, ?_⟩
  · have hp : (demoArrow Real.sqrt).pos[2]? = some
        ⟨0 + (0.866 * (demoArrow Real.sqrt).d.x + 0.5 * (demoArrow Real.sqrt).b.x) * 0.1,
         0 + (0.866 * (demoArrow Real.sqrt).d.y + 0.5 * (demoArrow Real.sqrt).b.y) * 0.1,
         0 + (0.866 * (demoArrow Real.sqrt).d.z + 0.5 * (demoArrow Real.sqrt).b.z) * 0.1⟩ := rfl
    rw [hp, hd, hb]
    norm_num
  · intro h
    have h2 := Real.sqrt_eq_iff_mul_self_eq_of_pos (by norm_num : (0 : ℝ) < 0.1) |>.mp h
    simp only [length_v, scalarproduct_v, scalarproduct, Vec3.sub] at h2
    norm_num at h2

/-- C4, amended: for a non-degenerate arrow with head radii `ah, bh ≥ 0`, each start-wing vertex
lies at distance `ah * sqrt(0.866^2 + 0.5^2) = ah * sqrt 0.999956` from `start` and each end-wing
vertex at distance `bh * sqrt 0.999956` from `end`, where `0.99997 < sqrt 0.999956 < 1`. -/
theorem C4_wing_distance (wd adv : Char → ℝ) (mv : Mat4 ℝ) (ax ay az bx by' bz ah bh : ℝ)
    (ann : Option String) (sz : ℝ) (h : NonDegenerate mv ⟨ax, ay, az⟩ ⟨bx, by', bz⟩)
    (hah : 0 ≤ ah) (hbh : 0 ≤ bh)
    (A : ArrowDraw ℝ) (hA : A = draw_arrow Real.sqrt wd adv mv ax ay az bx by' bz ah bh ann sz) :
    (∃ p2 p3 p4 p5, A.pos = [⟨ax, ay, az⟩, ⟨bx, by', bz⟩, p2, p3, p4, p5] ∧
      length_v Real.sqrt (Vec3.sub p2 ⟨ax, ay, az⟩) = ah * Real.sqrt 0.999956 ∧
      length_v Real.sqrt (Vec3.sub p3 ⟨ax, ay, az⟩) = ah * Real.sqrt 0.999956 ∧
      length_v Real.sqrt (Vec3.sub p4 ⟨bx, by', bz⟩) = bh * Real.sqrt 0.999956 ∧
      length_v Real.sqrt (Vec3.sub p5 ⟨bx, by', bz⟩) = bh * Real.sqrt 0.999956) ∧
    (0.99997 : ℝ) < Real.sqrt 0.999956 ∧ Real.sqrt 0.999956 < 1 := by
  obtain ⟨hd, -, hb, -, hdb, -, -⟩ :=
    arrow_frame wd adv mv ax ay az bx by' bz ah bh ann sz h A hA
  have hpos : A.pos = [⟨ax, ay, az⟩, ⟨bx, by', bz⟩,
      ⟨ax + (0.866*A.d.x + 0.5*A.b.x)*ah, ay + (0.866*A.d.y + 0.5*A.b.y)*ah,
       az + (0.866*A.d.z + 0.5*A.b.z)*ah⟩,
      ⟨ax + (0.866*A.d.x - 0.5*A.b.x)*ah, ay + (0.866*A.d.y - 0.5*A.b.y)*ah,
       az + (0.866*A.d.z - 0.5*A.b.z)*ah⟩,
      ⟨bx + (-0.866*A.d.x + 0.5*A.b.x)*bh, by' + (-0.866*A.d.y + 0.5*A.b.y)*bh,
       bz + (-0.866*A.d.z + 0.5*A.b.z)*bh⟩,
      ⟨bx + (-0.866*A.d.x - 0.5*A.b.x)*bh, by' + (-0.866*A.d.y - 0.5*A.b.y)*bh,
       bz + (-0.866*A.d.z - 0.5*A.b.z)*bh⟩] := by
    subst hA
    rfl
  have e1 : (0.866 : ℝ) * 0.866 + 0.5 * 0.5 = 0.999956 := by norm_num
  have e2 : (0.866 : ℝ) * 0.866 + (-0.5) * (-0.5) = 0.999956 := by norm_num
  have e3 : (-0.866 : ℝ) * (-0.866) + 0.5 * 0.5 = 0.999956 := by norm_num
  have e4 : (-0.866 : ℝ) * (-0.866) + (-0.5) * (-0.5) = 0.999956 := by norm_num
  refine ⟨⟨_, _, _, _, hpos, ?_, ?_, ?_, ?_⟩, sqrt_wing_bounds⟩
  · rw [← e1]
    apply offset_length A.d A.b _ hd hb hdb 0.866 0.5 ah hah <;> simp only [Vec3.sub] <;> ring
  · rw [← e2]
    apply offset_length A.d A.b _ hd hb hdb 0.866 (-0.5) ah hah <;> simp only [Vec3.sub] <;> ring
  · rw [← e3]
    apply offset_length A.d A.b _ hd hb hdb (-0.866) 0.5 bh hbh <;> simp only [Vec3.sub] <;> ring
  · rw [← e4]
    apply offset_length A.d A.b _ hd hb hdb (-0.866) (-0.5) bh hbh <;> simp only [Vec3.sub] <;>
      ring

/-- C4, amended, at the arrow `demoArrow`: the wings lie at distance `0.1 * sqrt 0.999956`. -/
theorem C4_wing_distance_witness :
    NonDegenerate (rotX90 : Mat4 ℝ) ⟨0, 0, 0⟩ ⟨0, 0, -1⟩ ∧ (0 : ℝ) ≤ 0.1 ∧
    ∃ p2 p3 p4 p5, (demoArrow Real.sqrt).pos = [⟨0, 0, 0⟩, ⟨0, 0, -1⟩, p2, p3, p4, p5] ∧
      length_v Real.sqrt (Vec3.sub p2 ⟨0, 0, 0⟩) = 0.1 * Real.sqrt 0.999956 ∧
      length_v Real.sqrt (Vec3.sub p3 ⟨0, 0, 0⟩) = 0.1 * Real.sqrt 0.999956 ∧
      length_v Real.sqrt (Vec3.sub p4 ⟨0, 0, -1⟩) = 0.1 * Real.sqrt 0.999956 ∧
      length_v Real.sqrt (Vec3.sub p5 ⟨0, 0, -1⟩) = 0.1 * Real.sqrt 0.999956 :=
  ⟨demo_nonDegenerate, by norm_num,
   (C4_wing_distance (fun _ => 100) (fun _ => 100) rotX90 0 0 0 0 0 (-1) 0.1 0.1
      (some "near") 0.075 demo_nonDegenerate (by norm_num) (by norm_num)
      (demoArrow Real.sqrt) rfl).1⟩

/-- C5: `draw_arrow` submits 6 vertices, `start`, `end`, the two start wings
`start + ah*(0.866*d ± 0.5*b)` and the two end wings `end + bh*(-0.866*d ± 0.5*b)`, and draws 5
segments: the shaft `{0,1}`, the start wings `{0,2}`, `{0,3}` and the end wings `{1,4}`, `{1,5}`;
every index is below 6. -/
theorem C5_arrow_vertices_edges (wd adv : Char → ℝ) (mv : Mat4 ℝ)
    (ax ay az bx by' bz ah bh : ℝ) (ann : Option String) (sz : ℝ)
    (A : ArrowDraw ℝ) (hA : A = draw_arrow Real.sqrt wd adv mv ax ay az bx by' bz ah bh ann sz) :
    A.pos.length = 6 ∧
    A.pos = [⟨ax, ay, az⟩, ⟨bx, by', bz⟩,
      Vec3.add ⟨ax, ay, az⟩
        (Vec3.smul ah (Vec3.add (Vec3.smul 0.866 A.d) (Vec3.smul 0.5 A.b))),
      Vec3.add ⟨ax, ay, az⟩
        (Vec3.smul ah (Vec3.sub (Vec3.smul 0.866 A.d) (Vec3.smul 0.5 A.b))),
      Vec3.add ⟨bx, by', bz⟩
        (Vec3.smul bh (Vec3.add (Vec3.smul (-0.866) A.d) (Vec3.smul 0.5 A.b))),
      Vec3.add ⟨bx, by', bz⟩
        (Vec3.smul bh (Vec3.sub (Vec3.smul (-0.866) A.d) (Vec3.smul 0.5 A.b)))] ∧
    A.lines.length = 5 ∧
    A.lines = [(0, 1), (0, 2), (0, 3), (1, 4), (1, 5)] ∧
    (∀ e ∈ A.lines, e.1 < 6 ∧ e.2 < 6) := by
  subst hA
  have hl : (draw_arrow Real.sqrt wd adv mv ax ay az bx by' bz ah bh ann sz).lines
      = [(0, 1), (0, 2), (0, 3), (1, 4), (1, 5)] := rfl
  rw [hl]
  refine ⟨rfl, ?_, rfl, rfl, by decide⟩
  simp only [draw_arrow, Vec3.add, Vec3.sub, Vec3.smul, List.cons.injEq, Vec3.mk.injEq,
    and_true, true_and]
  refine ⟨⟨?_, ?_, ?_⟩, ⟨?_, ?_, ?_⟩, ⟨?_, ?_, ?_⟩, ⟨?_, ?_, ?_⟩⟩ <;> ring

/-- C5 at the arrow `demoArrow`: 6 vertices and the 5 segments. -/
theorem C5_arrow_vertices_edges_witness :
    (demoArrow Real.sqrt).pos.length = 6 ∧
    (demoArrow Real.sqrt).lines = [(0, 1), (0, 2), (0, 3), (1, 4), (1, 5)] :=
  ⟨(C5_arrow_vertices_edges (fun _ => 100) (fun _ => 100) rotX90 0 0 0 0 0 (-1) 0.1 0.1
      (some "near") 0.075 (demoArrow Real.sqrt) rfl).1,
   (C5_arrow_vertices_edges (fun _ => 100) (fun _ => 100) rotX90 0 0 0 0 0 (-1) 0.1 0.1
      (some "near") 0.075 (demoArrow Real.sqrt) rfl).2.2.2.1⟩

/-- C6: for a non-degenerate arrow a zero head radius collapses the wing pair onto its end
point: if `ah = 0` vertices 2 and 3 equal `start`, and if `bh = 0` vertices 4 and 5 equal `end`,
whatever the other radius is. -/
theorem C6_zero_radius_collapses (wd adv : Char → ℝ) (mv : Mat4 ℝ)
    (ax ay az bx by' bz ah bh : ℝ) (ann : Option String) (sz : ℝ)
    (_h : NonDegenerate mv ⟨ax, ay, az⟩ ⟨bx, by', bz⟩)
    (A : ArrowDraw ℝ) (hA : A = draw_arrow Real.sqrt wd adv mv ax ay az bx by' bz ah bh ann sz) :
    (ah = 0 → A.pos[2]? = some ⟨ax, ay, az⟩ ∧ A.pos[3]? = some ⟨ax, ay, az⟩) ∧
    (bh = 0 → A.pos[4]? = some ⟨bx, by', bz⟩ ∧ A.pos[5]? = some ⟨bx, by', bz⟩) := by
  subst hA
  constructor
  · intro h0
    subst h0
    simp [draw_arrow]
  · intro h0
    subst h0
    simp [draw_arrow]

/-- C6 at the scene arrows "right" (`ah = 0`) and "left" (`bh = 0`) under the view `rotX90`. -/
theorem C6_zero_radius_collapses_witness :
    (NonDegenerate (rotX90 : Mat4 ℝ) ⟨0, 0, -1⟩ ⟨0.5, 0, -1⟩ ∧
      (draw_arrow Real.sqrt (fun _ => 100) (fun _ => 100) rotX90 0 0 (-1) 0.5 0 (-1) 0 0.1
        (some "right") 0.075).pos[2]? = some ⟨0, 0, -1⟩ ∧
      (draw_arrow Real.sqrt (fun _ => 100) (fun _ => 100) rotX90 0 0 (-1) 0.5 0 (-1) 0 0.1
        (some "right") 0.075).pos[3]? = some ⟨0, 0, -1⟩) ∧
    (NonDegenerate (rotX90 : Mat4 ℝ) ⟨-0.5, 0, -1⟩ ⟨0, 0, -1⟩ ∧
      (draw_arrow Real.sqrt (fun _ => 100) (fun _ => 100) rotX90 (-0.5) 0 (-1) 0 0 (-1) 0.1 0
        (some "left") 0.075).pos[4]? = some ⟨0, 0, -1⟩ ∧
      (draw_arrow Real.sqrt (fun _ => 100) (fun _ => 100) rotX90 (-0.5) 0 (-1) 0 0 (-1) 0.1 0
        (some "left") 0.075).pos[5]? = some ⟨0, 0, -1⟩) :=
  have hr : NonDegenerate (rotX90 : Mat4 ℝ) ⟨0, 0, -1⟩ ⟨0.5, 0, -1⟩ :=
    ⟨fun hc => by norm_num [Vec3.mk.injEq] at hc,
     fun c hc => by simp [viewAxis, rotX90, Vec3.smul, Vec3.sub] at hc⟩
  have hl : NonDegenerate (rotX90 : Mat4 ℝ) ⟨-0.5, 0, -1⟩ ⟨0, 0, -1⟩ :=
    ⟨fun hc => by norm_num [Vec3.mk.injEq] at hc,
     fun c hc => by simp [viewAxis, rotX90, Vec3.smul, Vec3.sub] at hc⟩
  ⟨⟨hr, (C6_zero_radius_collapses (fun _ => 100) (fun _ => 100) rotX90 0 0 (-1) 0.5 0 (-1) 0 0.1
      (some "right") 0.075 hr _ rfl).1 rfl⟩,
   ⟨hl, (C6_zero_radius_collapses (fun _ => 100) (fun _ => 100) rotX90 (-0.5) 0 (-1) 0 0 (-1)
      0.1 0 (some "left") 0.075 hl _ rfl).2 rfl⟩⟩

/-- C7: for a non-degenerate arrow with a label of total native stroke width `W` and label size
`s`, with `w = W*s/100`: the translation is `t = (start + end)/2 - (w/2)*d`, the rotation `r` has
columns `d, b, n`, the matrix under which the label is stroked is the modelview matrix times the
placement transform `P = T(t) * r * T(0, 0.1*s, 0) * S(s/100)`, and `P` maps the native baseline
point `(lam*W, 0, 0)` to `t + 0.1*s*b + lam*w*d`; the midpoint of the image of the baseline is
`(start + end)/2 + 0.1*s*b`. -/
theorem C7_label_centred (wd adv : Char → ℝ) (mv : Mat4 ℝ) (ax ay az bx by' bz ah bh : ℝ)
    (str : String) (sz : ℝ) (_h : NonDegenerate mv ⟨ax, ay, az⟩ ⟨bx, by', bz⟩)
    (A : ArrowDraw ℝ)
    (hA : A = draw_arrow Real.sqrt wd adv mv ax ay az bx by' bz ah bh (some str) sz) :
    ∃ (L : ArrowLabel ℝ) (P : Mat4 ℝ), A.label = some L ∧
      L.w = (str.toList.map wd).sum * sz / 100 ∧
      L.t = Vec3.sub (Vec3.smul (1/2) (Vec3.add ⟨ax, ay, az⟩ ⟨bx, by', bz⟩))
        (Vec3.smul (L.w / 2) A.d) ∧
      L.r = ⟨A.d.x, A.d.y, A.d.z, 0, A.b.x, A.b.y, A.b.z, 0, A.n.x, A.n.y, A.n.z, 0,
        0, 0, 0, 1⟩ ∧
      P = (((Mat4.translation L.t.x L.t.y L.t.z).mul L.r).mul
        (Mat4.translation 0 (0.1 * sz) 0)).mul (Mat4.scaling (sz / 100) (sz / 100) (sz / 100)) ∧
      L.text.base = mv.mul P ∧
      (∀ lam : ℝ, P.mulVec ⟨lam * (str.toList.map wd).sum, 0, 0, 1⟩ =
        ⟨L.t.x + 0.1 * sz * A.b.x + lam * L.w * A.d.x,
         L.t.y + 0.1 * sz * A.b.y + lam * L.w * A.d.y,
         L.t.z + 0.1 * sz * A.b.z + lam * L.w * A.d.z, 1⟩) ∧
      Vec3.smul (1/2) (Vec3.add (Vec3.add L.t (Vec3.smul (0.1 * sz) A.b))
          (Vec3.add (Vec3.add L.t (Vec3.smul (0.1 * sz) A.b)) (Vec3.smul L.w A.d)))
        = Vec3.add (Vec3.smul (1/2) (Vec3.add ⟨ax, ay, az⟩ ⟨bx, by', bz⟩))
            (Vec3.smul (0.1 * sz) A.b) := by
  have hw : str.toList.foldl (fun w c => w + wd c) 0 * (sz / 100)
      = (str.toList.map wd).sum * sz / 100 := by
    rw [foldl_width]
    ring
  have hlab : A.label = some
      { w := str.toList.foldl (fun w c => w + wd c) 0 * (sz / 100)
        t := ⟨(ax + bx - str.toList.foldl (fun w c => w + wd c) 0 * (sz / 100) * A.d.x) / 2,
              (ay + by' - str.toList.foldl (fun w c => w + wd c) 0 * (sz / 100) * A.d.y) / 2,
              (az + bz - str.toList.foldl (fun w c => w + wd c) 0 * (sz / 100) * A.d.z) / 2⟩
        r := ⟨A.d.x, A.d.y, A.d.z, 0, A.b.x, A.b.y, A.b.z, 0, A.n.x, A.n.y, A.n.z, 0,
          0, 0, 0, 1⟩
        text := draw_strokestring adv
          (glTranslatef
            (glMultMatrixd
              (glTranslatef mv
                ((ax + bx - str.toList.foldl (fun w c => w + wd c) 0 * (sz / 100) * A.d.x) / 2)
                ((ay + by' - str.toList.foldl (fun w c => w + wd c) 0 * (sz / 100) * A.d.y) / 2)
                ((az + bz - str.toList.foldl (fun w c => w + wd c) 0 * (sz / 100) * A.d.z) / 2))
              ⟨A.d.x, A.d.y, A.d.z, 0, A.b.x, A.b.y, A.b.z, 0, A.n.x, A.n.y, A.n.z, 0,
                0, 0, 0, 1⟩)
            0 (sz * 0.1) 0) sz (some str) } := by
    subst hA
    rfl
  refine ⟨_, _, hlab, hw, ?_, rfl, rfl, ?_, ?_, ?_⟩
  · simp only [Vec3.sub, Vec3.smul, Vec3.add, Vec3.mk.injEq]
    refine ⟨?_, ?_, ?_⟩ <;> ring
  · have e1 : sz * 0.1 = 0.1 * sz := by ring
    have e2 : sz * 0.01 = sz / 100 := by ring
    simp only [draw_strokestring, glScalef, glTranslatef, glMultMatrixd, Mat4.mul_assoc, e1, e2]
  · intro lam
    simp only [Mat4.mulVec, Mat4.mul, Mat4.translation, Mat4.scaling, Vec4.mk.injEq]
    rw [hw]
    refine ⟨?_, ?_, ?_, ?_⟩ <;> ring
  · simp only [Vec3.sub, Vec3.smul, Vec3.add, Vec3.mk.injEq]
    refine ⟨?_, ?_, ?_⟩ <;> ring

/-- C7 at the arrow `demoArrow`, whose label "near" is 400 native units wide. -/
theorem C7_label_centred_witness :
    NonDegenerate (rotX90 : Mat4 ℝ) ⟨0, 0, 0⟩ ⟨0, 0, -1⟩ ∧
    ∃ L : ArrowLabel ℝ, (demoArrow Real.sqrt).label = some L ∧
      L.w = ("near".toList.map (fun _ => (100 : ℝ))).sum * 0.075 / 100 ∧
      L.t = Vec3.sub (Vec3.smul (1/2) (Vec3.add ⟨0, 0, 0⟩ ⟨0, 0, -1⟩))
        (Vec3.smul (L.w / 2) (demoArrow Real.sqrt).d) :=
  ⟨demo_nonDegenerate,
   (C7_label_centred (fun _ => 100) (fun _ => 100) rotX90 0 0 0 0 0 (-1) 0.1 0.1 "near" 0.075
      demo_nonDegenerate (demoArrow Real.sqrt) rfl).elim
     fun L hL => hL.elim fun _ hP => ⟨L, hP.1, hP.2.1, hP.2.2.1⟩⟩

/-- A nonzero vector whose squared length underflows to zero: on `(2^-600, 0, 0)` the functions
return `(+∞, NaN, NaN)`. -/
theorem normalize_v_underflow :
    normalize_v F64.sqrt (⟨F64.fin false 1 (-600), 0, 0⟩ : Vec3 F64)
      = ⟨F64.inf false, F64.nan, F64.nan⟩ := by
  decide

/-- C8, as stated, fails: `normalize_v` and `normalize` have no failure result, and on the zero
vector they compute `k = 1/0 = +∞` and return `0 * ∞` = NaN in all three components. -/
theorem C8_normalize_zero_counterexample :
    normalize_v F64.sqrt (⟨0, 0, 0⟩ : Vec3 F64) = ⟨F64.nan, F64.nan, F64.nan⟩ ∧
    normalize F64.sqrt (0 : F64) 0 0 = ⟨F64.nan, F64.nan, F64.nan⟩ := by
  decide

/-- C8, amended: applied to the zero vector, `normalize` and `normalize_v` raise no error (they
have no check and no failure result): whatever the signs of the three zeros, the length is `+0`,
`k = 1/length` is `+∞`, and the vector returned is `(NaN, NaN, NaN)`. -/
theorem C8_normalize_zero_nan (sx sy sz : Bool) :
    length_v F64.sqrt ⟨F64.fin sx 0 0, F64.fin sy 0 0, F64.fin sz 0 0⟩ = F64.fin false 0 0 ∧
    1 / length_v F64.sqrt ⟨F64.fin sx 0 0, F64.fin sy 0 0, F64.fin sz 0 0⟩ = F64.inf false ∧
    normalize_v F64.sqrt ⟨F64.fin sx 0 0, F64.fin sy 0 0, F64.fin sz 0 0⟩
      = ⟨F64.nan, F64.nan, F64.nan⟩ ∧
    normalize F64.sqrt (F64.fin sx 0 0) (F64.fin sy 0 0) (F64.fin sz 0 0)
      = ⟨F64.nan, F64.nan, F64.nan⟩ := by
  cases sx <;> cases sy <;> cases sz <;> decide

/-- C9, as stated, fails: with `n = 4 > 0` and `f = 1 ≤ n` (an invalid frustum spec)
`draw_frustum` still submits its 9 vertices and draws its 4 + 12 segments. -/
theorem C9_invalid_frustum_counterexample :
    ((1 : ℝ) ≤ 4) ∧
    (draw_frustum (-0.5) 0.5 (-0.5) 0.5 4 1 : FrustumDraw ℝ).pos =
      [⟨0, 0, 0⟩, ⟨-0.5, -0.5, -4⟩, ⟨0.5, -0.5, -4⟩, ⟨0.5, 0.5, -4⟩, ⟨-0.5, 0.5, -4⟩,
       ⟨-0.125, -0.125, -1⟩, ⟨0.125, -0.125, -1⟩, ⟨0.125, 0.125, -1⟩, ⟨-0.125, 0.125, -1⟩] ∧
    (draw_frustum (-0.5) 0.5 (-0.5) 0.5 4 1 : FrustumDraw ℝ).tip.length = 4 ∧
    (draw_frustum (-0.5) 0.5 (-0.5) 0.5 4 1 : FrustumDraw ℝ).vol.length = 12 := by
  refine ⟨by norm_num, ?_, rfl, rfl⟩
  simp only [draw_frustum]
  norm_num

/-- C9, amended: `draw_frustum` performs no validation and has no failure result: for every
input with `n ≠ 0`, valid (`n > 0`, `f > n`) or not, it submits the same 9-vertex array and draws
the same 4 tip and 12 volume segments; `n > 0` and `f > n` are obligations of the caller. -/
theorem C9_frustum_no_validation (l r b t n f : ℝ) (hn : n ≠ 0) :
    (draw_frustum l r b t n f).pos =
      [⟨0, 0, 0⟩, ⟨l, b, -n⟩, ⟨r, b, -n⟩, ⟨r, t, -n⟩, ⟨l, t, -n⟩,
       Vec3.smul (f/n) ⟨l, b, -n⟩, Vec3.smul (f/n) ⟨r, b, -n⟩, Vec3.smul (f/n) ⟨r, t, -n⟩,
       Vec3.smul (f/n) ⟨l, t, -n⟩] ∧
    (draw_frustum l r b t n f).tip = [(0, 1), (0, 2), (0, 3), (0, 4)] ∧
    (draw_frustum l r b t n f).vol = [(1, 5), (2, 6), (3, 7), (4, 8), (1, 2), (2, 3),
      (3, 4), (4, 1), (5, 6), (6, 7), (7, 8), (8, 5)] := by
  have hz : f / n * -n = -f := by field_simp
  refine ⟨?_, rfl, rfl⟩
  simp only [draw_frustum, Vec3.smul, hz]

/-- C9, amended, at the invalid spec `n = -1`, `f = -4`. -/
theorem C9_frustum_no_validation_witness :
    (-1 : ℝ) ≠ 0 ∧
    (draw_frustum (-0.5) 0.5 (-0.5) 0.5 (-1) (-4) : FrustumDraw ℝ).tip
      = [(0, 1), (0, 2), (0, 3), (0, 4)] :=
  ⟨by norm_num, (C9_frustum_no_validation (-0.5) 0.5 (-0.5) 0.5 (-1) (-4) (by norm_num)).2.1⟩

/-- C10: in exact real arithmetic, for every nonzero vector `a` the vector produced by
`normalize_v` (and by `normalize`) has length 1 and is `k * a` with `k = 1/length(a) > 0`. -/
theorem C10_normalize_unit (a : Vec3 ℝ) (h : a ≠ ⟨0, 0, 0⟩) :
    length_v Real.sqrt (normalize_v Real.sqrt a) = 1 ∧
    normalize_v Real.sqrt a = Vec3.smul (1 / length_v Real.sqrt a) a ∧
    0 < 1 / length_v Real.sqrt a ∧
    length Real.sqrt (normalize Real.sqrt a.x a.y a.z).x (normalize Real.sqrt a.x a.y a.z).y
      (normalize Real.sqrt a.x a.y a.z).z = 1 ∧
    normalize Real.sqrt a.x a.y a.z = Vec3.smul (1 / length Real.sqrt a.x a.y a.z) a ∧
    0 < 1 / length Real.sqrt a.x a.y a.z := by
  have hu := length_v_of_unit _ (normalize_v_unit a h)
  have hs : normalize_v Real.sqrt a = Vec3.smul (1 / length_v Real.sqrt a) a := by
    simp only [normalize_v, Vec3.smul, Vec3.mk.injEq]
    exact ⟨mul_comm _ _, mul_comm _ _, mul_comm _ _⟩
  have hk : 0 < 1 / length_v Real.sqrt a := one_div_pos.mpr (length_v_pos a h)
  exact ⟨hu, hs, hk, hu, hs, hk⟩

/-- C10 at the vector `(3, 4, 0)`. -/
theorem C10_normalize_unit_witness :
    (⟨3, 4, 0⟩ : Vec3 ℝ) ≠ ⟨0, 0, 0⟩ ∧
    length_v Real.sqrt (normalize_v Real.sqrt ⟨3, 4, 0⟩) = 1 :=
  have h : (⟨3, 4, 0⟩ : Vec3 ℝ) ≠ ⟨0, 0, 0⟩ := fun hc => by
    norm_num [Vec3.mk.injEq] at hc
  ⟨h, (C10_normalize_unit ⟨3, 4, 0⟩ h).1⟩

/-- C11: `crossproduct(a, b)` is the componentwise negation of `crossproduct(b, a)`, and
`crossproduct_v` returns what `crossproduct` returns on the same components. -/
theorem C11_crossproduct_antisymmetric (a b : Vec3 ℝ) :
    crossproduct a.x a.y a.z b.x b.y b.z = Vec3.neg (crossproduct b.x b.y b.z a.x a.y a.z) ∧
    crossproduct_v a b = Vec3.neg (crossproduct_v b a) ∧
    crossproduct_v a b = crossproduct a.x a.y a.z b.x b.y b.z := by
  refine ⟨?_, ?_, rfl⟩
  · simp only [crossproduct, Vec3.neg, Vec3.mk.injEq]
    exact ⟨by ring, by ring, by ring⟩
  · simp only [crossproduct_v, crossproduct, Vec3.neg, Vec3.mk.injEq]
    exact ⟨by ring, by ring, by ring⟩

/-- C12: `scalarproduct(a, b)` equals `scalarproduct(b, a)`, and `scalarproduct_v` returns what
`scalarproduct` returns on the same components. -/
theorem C12_scalarproduct_symmetric (a b : Vec3 ℝ) :
    scalarproduct a.x a.y a.z b.x b.y b.z = scalarproduct b.x b.y b.z a.x a.y a.z ∧
    scalarproduct_v a b = scalarproduct_v b a ∧
    scalarproduct_v a b = scalarproduct a.x a.y a.z b.x b.y b.z := by
  refine ⟨?_, ?_, rfl⟩
  · simp only [scalarproduct]
    ring
  · simp only [scalarproduct_v, scalarproduct]
    ring

/-- C13: each `display_observer` frame replaces the orbit angle `alpha` by
`fmodf(alpha + 0.1, 360)`; from `alpha = 0` the angle after one frame is `(0 + 0.1) mod 360`,
which is `0.1`, and after any number of frames it satisfies `0 ≤ alpha < 360`. -/
theorem C13_orbit_angle_wraps (cosDeg sinDeg : ℝ → ℝ) (wd adv : Char → ℝ) (alpha : ℝ) (k : ℕ) :
    (display_observer Real.sqrt cosDeg sinDeg fmodExact wd adv alpha).alpha
      = fmodExact (alpha + 0.1) 360 ∧
    (display_observer Real.sqrt cosDeg sinDeg fmodExact wd adv 0).alpha
      = fmodExact (0 + 0.1) 360 ∧
    (display_observer Real.sqrt cosDeg sinDeg fmodExact wd adv 0).alpha = 0.1 ∧
    0 ≤ Nat.iterate
      (fun a => (display_observer Real.sqrt cosDeg sinDeg fmodExact wd adv a).alpha) k 0 ∧
    Nat.iterate
      (fun a => (display_observer Real.sqrt cosDeg sinDeg fmodExact wd adv a).alpha) k 0
      < 360 := by
  refine ⟨rfl, rfl, ?_, ?_⟩
  · show fmodExact ((0 : ℝ) + 0.1) 360 = 0.1
    rw [fmodExact_of_lt _ _ (by norm_num) (by norm_num)]
    norm_num
  · induction k with
    | zero => exact ⟨le_refl _, by norm_num⟩
    | succ k ih =>
      rw [Function.iterate_succ_apply']
      exact fmodExact_range _ 360 (by linarith [ih.1]) (by norm_num)

/-- C14: one `display_observer` frame submits one frustum geometry, for `l=-0.5, r=0.5, b=-0.5,
t=0.5, n=1, f=4`, followed by five arrow geometries; the arrows carry the labels "near", "left",
"right", "bottom", "top" in this order, each of size 0.075, and each arrow strokes the characters
of its non-empty label. -/
theorem C14_frame_submissions (cosDeg sinDeg : ℝ → ℝ) (wd adv : Char → ℝ) (alpha : ℝ)
    (F : ObserverFrame ℝ)
    (hF : F = display_observer Real.sqrt cosDeg sinDeg fmodExact wd adv alpha) :
    F.submissions =
      [ Submission.frustum (draw_frustum (-0.5) 0.5 (-0.5) 0.5 1 4),
        Submission.arrow ⟨0, 0, 0, 0, 0, -1, 0.1, 0.1, some "near", 0.075⟩
          (draw_arrow Real.sqrt wd adv F.mv 0 0 0 0 0 (-1) 0.1 0.1 (some "near") 0.075),
        Submission.arrow ⟨-0.5, 0, -1, 0, 0, -1, 0.1, 0, some "left", 0.075⟩
          (draw_arrow Real.sqrt wd adv F.mv (-0.5) 0 (-1) 0 0 (-1) 0.1 0 (some "left") 0.075),
        Submission.arrow ⟨0, 0, -1, 0.5, 0, -1, 0, 0.1, some "right", 0.075⟩
          (draw_arrow Real.sqrt wd adv F.mv 0 0 (-1) 0.5 0 (-1) 0 0.1 (some "right") 0.075),
        Submission.arrow ⟨0, -0.5, -1, 0, 0, -1, 0.1, 0, some "bottom", 0.075⟩
          (draw_arrow Real.sqrt wd adv F.mv 0 (-0.5) (-1) 0 0 (-1) 0.1 0 (some "bottom") 0.075),
        Submission.arrow ⟨0, 0, -1, 0, 0.5, -1, 0, 0.1, some "top", 0.075⟩
          (draw_arrow Real.sqrt wd adv F.mv 0 0 (-1) 0 0.5 (-1) 0 0.1 (some "top") 0.075) ] ∧
    F.submissions.length = 6 ∧
    (arrowCalls F.submissions).length = 5 ∧
    (arrowCalls F.submissions).map (fun c => c.annot)
      = [some "near", some "left", some "right", some "bottom", some "top"] ∧
    (arrowCalls F.submissions).map (fun c => c.annot_size)
      = [0.075, 0.075, 0.075, 0.075, 0.075] ∧
    (∀ c g, Submission.arrow c g ∈ F.submissions →
      ∃ (str : String) (L : ArrowLabel ℝ), c.annot = some str ∧ str.toList ≠ [] ∧
        g.label = some L ∧ L.text.strokes.map Prod.snd = str.toList) := by
  subst hF
  have hs : (display_observer Real.sqrt cosDeg sinDeg fmodExact wd adv alpha).submissions =
      [ Submission.frustum (draw_frustum (-0.5) 0.5 (-0.5) 0.5 1 4),
        Submission.arrow ⟨0, 0, 0, 0, 0, -1, 0.1, 0.1, some "near", 0.075⟩
          (draw_arrow Real.sqrt wd adv
            (display_observer Real.sqrt cosDeg sinDeg fmodExact wd adv alpha).mv
            0 0 0 0 0 (-1) 0.1 0.1 (some "near") 0.075),
        Submission.arrow ⟨-0.5, 0, -1, 0, 0, -1, 0.1, 0, some "left", 0.075⟩
          (draw_arrow Real.sqrt wd adv
            (display_observer Real.sqrt cosDeg sinDeg fmodExact wd adv alpha).mv
            (-0.5) 0 (-1) 0 0 (-1) 0.1 0 (some "left") 0.075),
        Submission.arrow ⟨0, 0, -1, 0.5, 0, -1, 0, 0.1, some "right", 0.075⟩
          (draw_arrow Real.sqrt wd adv
            (display_observer Real.sqrt cosDeg sinDeg fmodExact wd adv alpha).mv
            0 0 (-1) 0.5 0 (-1) 0 0.1 (some "right") 0.075),
        Submission.arrow ⟨0, -0.5, -1, 0, 0, -1, 0.1, 0, some "bottom", 0.075⟩
          (draw_arrow Real.sqrt wd adv
            (display_observer Real.sqrt cosDeg sinDeg fmodExact wd adv alpha).mv
            0 (-0.5) (-1) 0 0 (-1) 0.1 0 (some "bottom") 0.075),
        Submission.arrow ⟨0, 0, -1, 0, 0.5, -1, 0, 0.1, some "top", 0.075⟩
          (draw_arrow Real.sqrt wd adv
            (display_observer Real.sqrt cosDeg sinDeg fmodExact wd adv alpha).mv
            0 0 (-1) 0 0.5 (-1) 0 0.1 (some "top") 0.075) ] := rfl
  refine ⟨hs, ?_, ?_, ?_, ?_, ?_⟩
  · rw [hs]
    rfl
  · rw [hs]
    rfl
  · rw [hs]
    rfl
  · rw [hs]
    rfl
  · intro c g hm
    rw [hs] at hm
    simp only [List.mem_cons, List.mem_singleton, Submission.arrow.injEq, List.not_mem_nil,
      or_false, false_or, reduceCtorEq] at hm
    rcases hm with ⟨rfl, rfl⟩ | ⟨rfl, rfl⟩ | ⟨rfl, rfl⟩ | ⟨rfl, rfl⟩ | ⟨rfl, rfl⟩
    · obtain ⟨L, h1, h2⟩ := arrow_label_strokes wd adv
        (display_observer Real.sqrt cosDeg sinDeg fmodExact wd adv alpha).mv
        0 0 0 0 0 (-1) 0.1 0.1 "near" 0.075
      exact ⟨"near", L, rfl, by decide, h1, h2⟩
    · obtain ⟨L, h1, h2⟩ := arrow_label_strokes wd adv
        (display_observer Real.sqrt cosDeg sinDeg fmodExact wd adv alpha).mv
        (-0.5) 0 (-1) 0 0 (-1) 0.1 0 "left" 0.075
      exact ⟨"left", L, rfl, by decide, h1, h2⟩
    · obtain ⟨L, h1, h2⟩ := arrow_label_strokes wd adv
        (display_observer Real.sqrt cosDeg sinDeg fmodExact wd adv alpha).mv
        0 0 (-1) 0.5 0 (-1) 0 0.1 "right" 0.075
      exact ⟨"right", L, rfl, by decide, h1, h2⟩
    · obtain ⟨L, h1, h2⟩ := arrow_label_strokes wd adv
        (display_observer Real.sqrt cosDeg sinDeg fmodExact wd adv alpha).mv
        0 (-0.5) (-1) 0 0 (-1) 0.1 0 "bottom" 0.075
      exact ⟨"bottom", L, rfl, by decide, h1, h2⟩
    · obtain ⟨L, h1, h2⟩ := arrow_label_strokes wd adv
        (display_observer Real.sqrt cosDeg sinDeg fmodExact wd adv alpha).mv
        0 0 (-1) 0 0.5 (-1) 0 0.1 "top" 0.075
      exact ⟨"top", L, rfl, by decide, h1, h2⟩

/-- C14 at the first frame (`alpha = 0`), with a stroke font whose characters are all 100 units
wide. -/
theorem C14_frame_submissions_witness :
    (display_observer Real.sqrt (fun a => Real.cos (a * Real.pi / 180))
      (fun a => Real.sin (a * Real.pi / 180)) fmodExact (fun _ => 100) (fun _ => 100) 0).submissions.length = 6 ∧
    (arrowCalls (display_observer Real.sqrt (fun a => Real.cos (a * Real.pi / 180))
      (fun a => Real.sin (a * Real.pi / 180)) fmodExact (fun _ => 100) (fun _ => 100) 0).submissions).map (fun c => c.annot)
      = [some "near", some "left", some "right", some "bottom", some "top"] ∧
    (arrowCalls (display_observer Real.sqrt (fun a => Real.cos (a * Real.pi / 180))
      (fun a => Real.sin (a * Real.pi / 180)) fmodExact (fun _ => 100) (fun _ => 100) 0).submissions).map (fun c => c.annot_size)
      = [0.075, 0.075, 0.075, 0.075, 0.075] :=
  ⟨(C14_frame_submissions (fun a => Real.cos (a * Real.pi / 180))
      (fun a => Real.sin (a * Real.pi / 180)) (fun _ => 100) (fun _ => 100) 0 _ rfl).2.1,
   (C14_frame_submissions (fun a => Real.cos (a * Real.pi / 180))
      (fun a => Real.sin (a * Real.pi / 180)) (fun _ => 100) (fun _ => 100) 0 _ rfl).2.2.2.1,
   (C14_frame_submissions (fun a => Real.cos (a * Real.pi / 180))
      (fun a => Real.sin (a * Real.pi / 180)) (fun _ => 100) (fun _ => 100) 0 _ rfl).2.2.2.2.1⟩

/-- C15, as stated, fails: the "right" arrow (third `draw_arrow` call after "near" and "left")
starts at the near-plane centre `(0, 0, -1)`, not at the midpoint `(0.5, 0, -1)` of the right
side of the near rectangle (corners 2 and 3 of the frustum), and ends at that midpoint. -/
theorem C15_edge_arrows_counterexample :
    (arrowCalls (display_observer Real.sqrt (fun a => Real.cos (a * Real.pi / 180))
      (fun a => Real.sin (a * Real.pi / 180)) fmodExact (fun _ => 100) (fun _ => 100) 0).submissions)[2]?
      = some ⟨0, 0, -1, 0.5, 0, -1, 0, 0.1, some "right", 0.075⟩ ∧
    (draw_frustum (-0.5) 0.5 (-0.5) 0.5 1 4 : FrustumDraw ℝ).pos[2]? = some ⟨0.5, -0.5, -1⟩ ∧
    (draw_frustum (-0.5) 0.5 (-0.5) 0.5 1 4 : FrustumDraw ℝ).pos[3]? = some ⟨0.5, 0.5, -1⟩ ∧
    Vec3.smul (1/2) (Vec3.add (⟨0.5, -0.5, -1⟩ : Vec3 ℝ) ⟨0.5, 0.5, -1⟩) = ⟨0.5, 0, -1⟩ ∧
    ArrowCall.start (⟨0, 0, -1, 0.5, 0, -1, 0, 0.1, some "right", 0.075⟩ : ArrowCall ℝ)
      ≠ ⟨0.5, 0, -1⟩ ∧
    ArrowCall.stop (⟨0, 0, -1, 0.5, 0, -1, 0, 0.1, some "right", 0.075⟩ : ArrowCall ℝ)
      = ⟨0.5, 0, -1⟩ := by
  refine ⟨rfl, rfl, rfl, ?_, ?_, rfl⟩
  · simp only [Vec3.smul, Vec3.add, Vec3.mk.injEq]
    norm_num
  · simp only [ArrowCall.start, ne_eq, Vec3.mk.injEq]
    norm_num

/-- C15, amended: in the scene of `display_observer` the "near" arrow runs from the apex to the
near-plane centre; "left" and "bottom" run from the midpoint of their side of the near rectangle
to the near-plane centre; "right" and "top" run from the near-plane centre to the midpoint of
their side.  Each edge arrow has its nonzero head radius at the side midpoint. -/
theorem C15_scene_arrows (cosDeg sinDeg : ℝ → ℝ) (wd adv : Char → ℝ) (alpha : ℝ) :
    ∃ (D : FrustumDraw ℝ) (p0 p1 p2 p3 p4 : Vec3 ℝ) (cn cl cr cb ct : ArrowCall ℝ),
      (display_observer Real.sqrt cosDeg sinDeg fmodExact wd adv alpha).submissions.head?
        = some (Submission.frustum D) ∧
      D.pos.take 5 = [p0, p1, p2, p3, p4] ∧
      arrowCalls (display_observer Real.sqrt cosDeg sinDeg fmodExact wd adv alpha).submissions
        = [cn, cl, cr, cb, ct] ∧
      [cn.annot, cl.annot, cr.annot, cb.annot, ct.annot]
        = [some "near", some "left", some "right", some "bottom", some "top"] ∧
      cn.start = p0 ∧
      cn.stop = Vec3.smul (1/4) (Vec3.add (Vec3.add p1 p2) (Vec3.add p3 p4)) ∧
      cl.start = Vec3.smul (1/2) (Vec3.add p4 p1) ∧ cl.stop = cn.stop ∧
      cr.start = cn.stop ∧ cr.stop = Vec3.smul (1/2) (Vec3.add p2 p3) ∧
      cb.start = Vec3.smul (1/2) (Vec3.add p1 p2) ∧ cb.stop = cn.stop ∧
      ct.start = cn.stop ∧ ct.stop = Vec3.smul (1/2) (Vec3.add p3 p4) ∧
      (cl.ah = 0.1 ∧ cl.bh = 0) ∧ (cr.ah = 0 ∧ cr.bh = 0.1) ∧
      (cb.ah = 0.1 ∧ cb.bh = 0) ∧ (ct.ah = 0 ∧ ct.bh = 0.1) := by
  refine ⟨draw_frustum (-0.5) 0.5 (-0.5) 0.5 1 4,
    ⟨0, 0, 0⟩, ⟨-0.5, -0.5, -1⟩, ⟨0.5, -0.5, -1⟩, ⟨0.5, 0.5, -1⟩, ⟨-0.5, 0.5, -1⟩,
    ⟨0, 0, 0, 0, 0, -1, 0.1, 0.1, some "near", 0.075⟩,
    ⟨-0.5, 0, -1, 0, 0, -1, 0.1, 0, some "left", 0.075⟩,
    ⟨0, 0, -1, 0.5, 0, -1, 0, 0.1, some "right", 0.075⟩,
    ⟨0, -0.5, -1, 0, 0, -1, 0.1, 0, some "bottom", 0.075⟩,
    ⟨0, 0, -1, 0, 0.5, -1, 0, 0.1, some "top", 0.075⟩,
    rfl, rfl, rfl, rfl, rfl, ?_, ?_, rfl, rfl, ?_, ?_, rfl, rfl, ?_,
    ⟨rfl, rfl⟩, ⟨rfl, rfl⟩, ⟨rfl, rfl⟩, ⟨rfl, rfl⟩⟩ <;>
  · simp only [ArrowCall.start, ArrowCall.stop, Vec3.smul, Vec3.add, Vec3.mk.injEq]
    norm_num

/-- C16: for a non-degenerate arrow the frame of `draw_arrow` is right-handed: `b = cross(n, d)`,
`d = cross(b, n)`, `n = cross(d, b)` and `dot(d, cross(b, n)) = 1`; the rotation `r` of the label
placement, whose columns are `d, b, n`, has determinant `+1`. -/
theorem C16_frame_right_handed (wd adv : Char → ℝ) (mv : Mat4 ℝ)
    (ax ay az bx by' bz ah bh : ℝ) (ann : Option String) (sz : ℝ)
    (h : NonDegenerate mv ⟨ax, ay, az⟩ ⟨bx, by', bz⟩)
    (A : ArrowDraw ℝ) (hA : A = draw_arrow Real.sqrt wd adv mv ax ay az bx by' bz ah bh ann sz) :
    A.b = crossproduct_v A.n A.d ∧
    A.d = crossproduct_v A.b A.n ∧
    A.n = crossproduct_v A.d A.b ∧
    scalarproduct_v A.d (crossproduct_v A.b A.n) = 1 ∧
    (∀ str : String, ann = some str → ∃ L : ArrowLabel ℝ, A.label = some L ∧
      L.r = ⟨A.d.x, A.d.y, A.d.z, 0, A.b.x, A.b.y, A.b.z, 0, A.n.x, A.n.y, A.n.z, 0,
        0, 0, 0, 1⟩ ∧
      Mat4.det3 L.r = 1) := by
  obtain ⟨hd, hn, -, hdn, -, -, hb⟩ :=
    arrow_frame wd adv mv ax ay az bx by' bz ah bh ann sz h A hA
  have h1 : crossproduct_v A.b A.n = A.d := by
    rw [hb]
    exact cross_cross_left A.n A.d hn hdn
  have h2 : crossproduct_v A.d A.b = A.n := by
    rw [hb]
    exact cross_cross_right A.n A.d hd hdn
  have h3 : scalarproduct_v A.d (crossproduct_v A.b A.n) = 1 := by
    rw [h1]
    exact hd
  refine ⟨hb, h1.symm, h2.symm, h3, ?_⟩
  intro str hs
  subst hs
  have hlab : ∃ L : ArrowLabel ℝ, A.label = some L ∧
      L.r = ⟨A.d.x, A.d.y, A.d.z, 0, A.b.x, A.b.y, A.b.z, 0, A.n.x, A.n.y, A.n.z, 0,
        0, 0, 0, 1⟩ := by
    subst hA
    exact ⟨_, rfl, rfl⟩
  obtain ⟨L, hL, hr⟩ := hlab
  refine ⟨L, hL, hr, ?_⟩
  rw [hr]
  simp only [scalarproduct_v, scalarproduct, crossproduct_v, crossproduct] at h3
  simp only [Mat4.det3]
  linear_combination h3

/-- C16 at the arrow `demoArrow`: its label rotation has determinant `+1`. -/
theorem C16_frame_right_handed_witness :
    NonDegenerate (rotX90 : Mat4 ℝ) ⟨0, 0, 0⟩ ⟨0, 0, -1⟩ ∧
    scalarproduct_v (demoArrow Real.sqrt).d
      (crossproduct_v (demoArrow Real.sqrt).b (demoArrow Real.sqrt).n) = 1 ∧
    ∃ L : ArrowLabel ℝ, (demoArrow Real.sqrt).label = some L ∧ Mat4.det3 L.r = 1 :=
  ⟨demo_nonDegenerate,
   (C16_frame_right_handed (fun _ => 100) (fun _ => 100) rotX90 0 0 0 0 0 (-1) 0.1 0.1
      (some "near") 0.075 demo_nonDegenerate (demoArrow Real.sqrt) rfl).2.2.2.1,
   ((C16_frame_right_handed (fun _ => 100) (fun _ => 100) rotX90 0 0 0 0 0 (-1) 0.1 0.1
      (some "near") 0.075 demo_nonDegenerate (demoArrow Real.sqrt) rfl).2.2.2.2 "near" rfl).elim
     fun L hL => ⟨L, hL.1, hL.2.2⟩⟩

set_option maxRecDepth 100000 in
/-- C17, as stated, fails on doubles: for the arrow from `(0,0,0)` to `(1,1,1)` with the view
axis `v = (1,1,1)`, which is a scalar multiple of the computed unit direction `d = (k,k,k)`, the
residual `v - d*dot(d, v)` computed in binary64 is `(-2^-52, -2^-52, -2^-52)`, not the zero
vector; its length is not zero, so the second `normalize_v` does not divide by zero and returns
a finite vector `n`. -/
theorem C17_residual_rounding_counterexample :
    viewAxis (viewOnes : Mat4 F64) = ⟨1, 1, 1⟩ ∧
    (diagArrow F64.sqrt).d
      = ⟨F64.fin false 5200308914369309 (-53), F64.fin false 5200308914369309 (-53),
         F64.fin false 5200308914369309 (-53)⟩ ∧
    (∃ c : ℚ, F64.toRat 1 = c * F64.toRat (F64.fin false 5200308914369309 (-53))) ∧
    scalarproduct_v (diagArrow F64.sqrt).d (viewAxis (viewOnes : Mat4 F64))
      = F64.fin false 1950115842888491 (-50) ∧
    residual (diagArrow F64.sqrt).d (viewAxis (viewOnes : Mat4 F64))
      = ⟨F64.fin true 1 (-52), F64.fin true 1 (-52), F64.fin true 1 (-52)⟩ ∧
    length_v F64.sqrt (residual (diagArrow F64.sqrt).d (viewAxis (viewOnes : Mat4 F64)))
      ≠ F64.fin false 0 0 ∧
    (diagArrow F64.sqrt).n
      = normalize_v F64.sqrt (residual (diagArrow F64.sqrt).d (viewAxis (viewOnes : Mat4 F64))) ∧
    (diagArrow F64.sqrt).n
      = ⟨F64.fin true 5200308914369309 (-53), F64.fin true 5200308914369309 (-53), F64.fin true 5200308914369309 (-53)⟩ := by
  refine ⟨by decide, by decide, ?_, by decide, by decide, by decide, rfl, by decide⟩
  refine ⟨1 / F64.toRat (F64.fin false 5200308914369309 (-53)), ?_⟩
  norm_num [F64.toRat]

/-- C17, amended: in exact real arithmetic, for an arrow with `start ≠ end` and any view axis
`v`, the vector `d` of `draw_arrow` is the unit arrow direction `(end - start)/|end - start|`, the
Gram-Schmidt residual `v - d*dot(d, v)` that `draw_arrow` normalises into `n` is orthogonal to
`d`, and it is the zero vector, equivalently has length zero (the divisor of the second
normalisation), if and only if `v` is a scalar multiple of `d`, equivalently of
`end - start`. -/
theorem C17_residual_zero_iff (wd adv : Char → ℝ) (mv : Mat4 ℝ)
    (ax ay az bx by' bz ah bh : ℝ) (ann : Option String) (sz : ℝ)
    (h : (⟨ax, ay, az⟩ : Vec3 ℝ) ≠ ⟨bx, by', bz⟩)
    (A : ArrowDraw ℝ) (hA : A = draw_arrow Real.sqrt wd adv mv ax ay az bx by' bz ah bh ann sz) :
    A.d = Vec3.smul (1 / length_v Real.sqrt (Vec3.sub ⟨bx, by', bz⟩ ⟨ax, ay, az⟩))
      (Vec3.sub ⟨bx, by', bz⟩ ⟨ax, ay, az⟩) ∧
    0 < 1 / length_v Real.sqrt (Vec3.sub ⟨bx, by', bz⟩ ⟨ax, ay, az⟩) ∧
    length_v Real.sqrt A.d = 1 ∧
    A.n = normalize_v Real.sqrt (residual A.d (viewAxis mv)) ∧
    residual A.d (viewAxis mv)
      = Vec3.sub (viewAxis mv) (Vec3.smul (scalarproduct_v A.d (viewAxis mv)) A.d) ∧
    scalarproduct_v A.d (residual A.d (viewAxis mv)) = 0 ∧
    (residual A.d (viewAxis mv) = ⟨0, 0, 0⟩ ↔ ∃ c : ℝ, viewAxis mv = Vec3.smul c A.d) ∧
    (residual A.d (viewAxis mv) = ⟨0, 0, 0⟩
      ↔ ∃ c : ℝ, viewAxis mv = Vec3.smul c (Vec3.sub ⟨bx, by', bz⟩ ⟨ax, ay, az⟩)) ∧
    (length_v Real.sqrt (residual A.d (viewAxis mv)) = 0
      ↔ ∃ c : ℝ, viewAxis mv = Vec3.smul c A.d) := by
  have hne := direction_ne_zero ax ay az bx by' bz h
  have hk : 0 < 1 / length_v Real.sqrt (Vec3.sub ⟨bx, by', bz⟩ ⟨ax, ay, az⟩) :=
    one_div_pos.mpr (length_v_pos _ hne)
  have hdk : A.d = Vec3.smul (1 / length_v Real.sqrt (Vec3.sub ⟨bx, by', bz⟩ ⟨ax, ay, az⟩))
      (Vec3.sub ⟨bx, by', bz⟩ ⟨ax, ay, az⟩) := by
    subst hA
    exact normalize_v_smul _
  have hd : scalarproduct_v A.d A.d = 1 := by
    subst hA
    exact normalize_v_unit _ hne
  have hn : A.n = normalize_v Real.sqrt (residual A.d (viewAxis mv)) := by
    subst hA
    rfl
  have hiff := residual_eq_zero_iff A.d (viewAxis mv) hd
  refine ⟨hdk, hk, length_v_of_unit _ hd, hn, ?_, sp_residual A.d (viewAxis mv) hd, hiff, ?_, ?_⟩
  · simp only [residual, Vec3.sub, Vec3.smul, Vec3.mk.injEq]
    exact ⟨by ring, by ring, by ring⟩
  · rw [hiff]
    constructor
    · rintro ⟨c, hc⟩
      refine ⟨c * (1 / length_v Real.sqrt (Vec3.sub ⟨bx, by', bz⟩ ⟨ax, ay, az⟩)), ?_⟩
      rw [hc, hdk]
      simp only [Vec3.smul, Vec3.mk.injEq]
      exact ⟨by ring, by ring, by ring⟩
    · rintro ⟨c, hc⟩
      refine ⟨c * length_v Real.sqrt (Vec3.sub ⟨bx, by', bz⟩ ⟨ax, ay, az⟩), ?_⟩
      have hL : length_v Real.sqrt (Vec3.sub ⟨bx, by', bz⟩ ⟨ax, ay, az⟩) ≠ 0 :=
        (length_v_pos _ hne).ne'
      rw [hc, hdk]
      simp only [Vec3.smul, Vec3.mk.injEq]
      refine ⟨?_, ?_, ?_⟩ <;> field_simp <;> ring
  · rw [length_v_eq_zero_iff]
    exact hiff

/-- C17, amended, at the arrow `demoArrow`: `d` is the unit arrow direction and the residual is
orthogonal to it. -/
theorem C17_residual_zero_iff_witness :
    (⟨0, 0, 0⟩ : Vec3 ℝ) ≠ ⟨0, 0, -1⟩ ∧
    length_v Real.sqrt (demoArrow Real.sqrt).d = 1 ∧
    scalarproduct_v (demoArrow Real.sqrt).d
      (residual (demoArrow Real.sqrt).d (viewAxis rotX90)) = 0 :=
  ⟨demo_nonDegenerate.1,
   (C17_residual_zero_iff (fun _ => 100) (fun _ => 100) rotX90 0 0 0 0 0 (-1) 0.1 0.1
      (some "near") 0.075 demo_nonDegenerate.1 (demoArrow Real.sqrt) rfl).2.2.1,
   (C17_residual_zero_iff (fun _ => 100) (fun _ => 100) rotX90 0 0 0 0 0 (-1) 0.1 0.1
      (some "near") 0.075 demo_nonDegenerate.1 (demoArrow Real.sqrt) rfl).2.2.2.2.2.1⟩

/-- C18: for a non-degenerate arrow the four wing vertices lie in the plane of `d` and `b` and
are symmetric about the shaft: each wing offset has component 0 along `n`; the start wings have
component `0.866*ah` along `d` and `±0.5*ah` along `b`, the end wings `-0.866*bh` along `d` and
`±0.5*bh` along `b`; the midpoint of each wing pair lies on the shaft line. -/
theorem C18_wings_symmetric (wd adv : Char → ℝ) (mv : Mat4 ℝ)
    (ax ay az bx by' bz ah bh : ℝ) (ann : Option String) (sz : ℝ)
    (h : NonDegenerate mv ⟨ax, ay, az⟩ ⟨bx, by', bz⟩)
    (A : ArrowDraw ℝ) (hA : A = draw_arrow Real.sqrt wd adv mv ax ay az bx by' bz ah bh ann sz) :
    ∃ p2 p3 p4 p5 : Vec3 ℝ, A.pos = [⟨ax, ay, az⟩, ⟨bx, by', bz⟩, p2, p3, p4, p5] ∧
      (scalarproduct_v (Vec3.sub p2 ⟨ax, ay, az⟩) A.n = 0 ∧
        scalarproduct_v (Vec3.sub p2 ⟨ax, ay, az⟩) A.d = 0.866 * ah ∧
        scalarproduct_v (Vec3.sub p2 ⟨ax, ay, az⟩) A.b = 0.5 * ah) ∧
      (scalarproduct_v (Vec3.sub p3 ⟨ax, ay, az⟩) A.n = 0 ∧
        scalarproduct_v (Vec3.sub p3 ⟨ax, ay, az⟩) A.d = 0.866 * ah ∧
        scalarproduct_v (Vec3.sub p3 ⟨ax, ay, az⟩) A.b = -0.5 * ah) ∧
      (scalarproduct_v (Vec3.sub p4 ⟨bx, by', bz⟩) A.n = 0 ∧
        scalarproduct_v (Vec3.sub p4 ⟨bx, by', bz⟩) A.d = -0.866 * bh ∧
        scalarproduct_v (Vec3.sub p4 ⟨bx, by', bz⟩) A.b = 0.5 * bh) ∧
      (scalarproduct_v (Vec3.sub p5 ⟨bx, by', bz⟩) A.n = 0 ∧
        scalarproduct_v (Vec3.sub p5 ⟨bx, by', bz⟩) A.d = -0.866 * bh ∧
        scalarproduct_v (Vec3.sub p5 ⟨bx, by', bz⟩) A.b = -0.5 * bh) ∧
      Vec3.smul (1/2) (Vec3.add p2 p3) = Vec3.add ⟨ax, ay, az⟩ (Vec3.smul (0.866 * ah) A.d) ∧
      Vec3.smul (1/2) (Vec3.add p4 p5) = Vec3.add ⟨bx, by', bz⟩ (Vec3.smul (-0.866 * bh) A.d) ∧
      (∃ lam : ℝ, Vec3.smul (1/2) (Vec3.add p2 p3)
        = Vec3.add ⟨ax, ay, az⟩ (Vec3.smul lam (Vec3.sub ⟨bx, by', bz⟩ ⟨ax, ay, az⟩))) ∧
      (∃ mu : ℝ, Vec3.smul (1/2) (Vec3.add p4 p5)
        = Vec3.add ⟨bx, by', bz⟩ (Vec3.smul mu (Vec3.sub ⟨bx, by', bz⟩ ⟨ax, ay, az⟩))) := by
  obtain ⟨hd, -, hb, hdn, hdb, hbn, -⟩ :=
    arrow_frame wd adv mv ax ay az bx by' bz ah bh ann sz h A hA
  have hpos : A.pos = [⟨ax, ay, az⟩, ⟨bx, by', bz⟩,
      ⟨ax + (0.866*A.d.x + 0.5*A.b.x)*ah, ay + (0.866*A.d.y + 0.5*A.b.y)*ah,
       az + (0.866*A.d.z + 0.5*A.b.z)*ah⟩,
      ⟨ax + (0.866*A.d.x - 0.5*A.b.x)*ah, ay + (0.866*A.d.y - 0.5*A.b.y)*ah,
       az + (0.866*A.d.z - 0.5*A.b.z)*ah⟩,
      ⟨bx + (-0.866*A.d.x + 0.5*A.b.x)*bh, by' + (-0.866*A.d.y + 0.5*A.b.y)*bh,
       bz + (-0.866*A.d.z + 0.5*A.b.z)*bh⟩,
      ⟨bx + (-0.866*A.d.x - 0.5*A.b.x)*bh, by' + (-0.866*A.d.y - 0.5*A.b.y)*bh,
       bz + (-0.866*A.d.z - 0.5*A.b.z)*bh⟩] := by
    subst hA
    rfl
  have hdk : A.d = Vec3.smul (1 / length_v Real.sqrt ⟨bx - ax, by' - ay, bz - az⟩)
      ⟨bx - ax, by' - ay, bz - az⟩ := by
    subst hA
    exact normalize_v_smul _
  have hm1 : Vec3.smul (1/2) (Vec3.add
      (⟨ax + (0.866*A.d.x + 0.5*A.b.x)*ah, ay + (0.866*A.d.y + 0.5*A.b.y)*ah,
        az + (0.866*A.d.z + 0.5*A.b.z)*ah⟩ : Vec3 ℝ)
      ⟨ax + (0.866*A.d.x - 0.5*A.b.x)*ah, ay + (0.866*A.d.y - 0.5*A.b.y)*ah,
        az + (0.866*A.d.z - 0.5*A.b.z)*ah⟩)
      = Vec3.add ⟨ax, ay, az⟩ (Vec3.smul (0.866 * ah) A.d) := by
    simp only [Vec3.smul, Vec3.add, Vec3.mk.injEq]
    exact ⟨by ring, by ring, by ring⟩
  have hm2 : Vec3.smul (1/2) (Vec3.add
      (⟨bx + (-0.866*A.d.x + 0.5*A.b.x)*bh, by' + (-0.866*A.d.y + 0.5*A.b.y)*bh,
        bz + (-0.866*A.d.z + 0.5*A.b.z)*bh⟩ : Vec3 ℝ)
      ⟨bx + (-0.866*A.d.x - 0.5*A.b.x)*bh, by' + (-0.866*A.d.y - 0.5*A.b.y)*bh,
        bz + (-0.866*A.d.z - 0.5*A.b.z)*bh⟩)
      = Vec3.add ⟨bx, by', bz⟩ (Vec3.smul (-0.866 * bh) A.d) := by
    simp only [Vec3.smul, Vec3.add, Vec3.mk.injEq]
    exact ⟨by ring, by ring, by ring⟩
  refine ⟨_, _, _, _, hpos, ?_, ?_, ?_, ?_, hm1, hm2, ?_, ?_⟩
  · apply offset_components A.d A.b A.n _ hd hb hdn hdb hbn 0.866 0.5 ah <;>
      simp only [Vec3.sub] <;> ring
  · apply offset_components A.d A.b A.n _ hd hb hdn hdb hbn 0.866 (-0.5) ah <;>
      simp only [Vec3.sub] <;> ring
  · apply offset_components A.d A.b A.n _ hd hb hdn hdb hbn (-0.866) 0.5 bh <;>
      simp only [Vec3.sub] <;> ring
  · apply offset_components A.d A.b A.n _ hd hb hdn hdb hbn (-0.866) (-0.5) bh <;>
      simp only [Vec3.sub] <;> ring
  · refine ⟨0.866 * ah * (1 / length_v Real.sqrt ⟨bx - ax, by' - ay, bz - az⟩), ?_⟩
    rw [hm1, hdk]
    simp only [Vec3.smul, Vec3.add, Vec3.sub, Vec3.mk.injEq]
    exact ⟨by ring, by ring, by ring⟩
  · refine ⟨-0.866 * bh * (1 / length_v Real.sqrt ⟨bx - ax, by' - ay, bz - az⟩), ?_⟩
    rw [hm2, hdk]
    simp only [Vec3.smul, Vec3.add, Vec3.sub, Vec3.mk.injEq]
    exact ⟨by ring, by ring, by ring⟩

/-- C18 at the arrow `demoArrow`. -/
theorem C18_wings_symmetric_witness :
    NonDegenerate (rotX90 : Mat4 ℝ) ⟨0, 0, 0⟩ ⟨0, 0, -1⟩ ∧
    ∃ p2 p3 p4 p5 : Vec3 ℝ,
      (demoArrow Real.sqrt).pos = [⟨0, 0, 0⟩, ⟨0, 0, -1⟩, p2, p3, p4, p5] ∧
      (scalarproduct_v (Vec3.sub p2 ⟨0, 0, 0⟩) (demoArrow Real.sqrt).n = 0 ∧
        scalarproduct_v (Vec3.sub p2 ⟨0, 0, 0⟩) (demoArrow Real.sqrt).d = 0.866 * 0.1 ∧
        scalarproduct_v (Vec3.sub p2 ⟨0, 0, 0⟩) (demoArrow Real.sqrt).b = 0.5 * 0.1) :=
  ⟨demo_nonDegenerate,
   (C18_wings_symmetric (fun _ => 100) (fun _ => 100) rotX90 0 0 0 0 0 (-1) 0.1 0.1
      (some "near") 0.075 demo_nonDegenerate (demoArrow Real.sqrt) rfl).elim
     fun p2 h2 => h2.elim fun p3 h3 => h3.elim fun p4 h4 => h4.elim fun p5 h5 =>
       ⟨p2, p3, p4, p5, h5.1, h5.2.1⟩⟩

/-- C19: for a non-degenerate arrow the frame normal `n` points into the half-space of the view
axis `v`: `dot(n, v)` equals the length of the Gram-Schmidt residual `v - d*dot(d, v)` and is
strictly positive; here `d` is the unit arrow direction and `n` the normalised residual. -/
theorem C19_normal_faces_view (wd adv : Char → ℝ) (mv : Mat4 ℝ)
    (ax ay az bx by' bz ah bh : ℝ) (ann : Option String) (sz : ℝ)
    (h : NonDegenerate mv ⟨ax, ay, az⟩ ⟨bx, by', bz⟩)
    (A : ArrowDraw ℝ) (hA : A = draw_arrow Real.sqrt wd adv mv ax ay az bx by' bz ah bh ann sz) :
    scalarproduct_v A.n (viewAxis mv) = length_v Real.sqrt (residual A.d (viewAxis mv)) ∧
    residual A.d (viewAxis mv)
      = Vec3.sub (viewAxis mv) (Vec3.smul (scalarproduct_v A.d (viewAxis mv)) A.d) ∧
    0 < scalarproduct_v A.n (viewAxis mv) ∧
    A.d = normalize_v Real.sqrt (Vec3.sub ⟨bx, by', bz⟩ ⟨ax, ay, az⟩) ∧
    length_v Real.sqrt A.d = 1 ∧
    A.n = normalize_v Real.sqrt (residual A.d (viewAxis mv)) := by
  obtain ⟨hd, -, -, -, -, -, -⟩ :=
    arrow_frame wd adv mv ax ay az bx by' bz ah bh ann sz h A hA
  have hdn : A.d = normalize_v Real.sqrt (Vec3.sub ⟨bx, by', bz⟩ ⟨ax, ay, az⟩) := by
    subst hA
    rfl
  have hr : residual A.d (viewAxis mv) ≠ ⟨0, 0, 0⟩ := by
    subst hA
    exact residual_ne_zero mv ax ay az bx by' bz h
  have hn : A.n = normalize_v Real.sqrt (residual A.d (viewAxis mv)) := by
    subst hA
    rfl
  have hv : scalarproduct_v A.n (viewAxis mv)
      = length_v Real.sqrt (residual A.d (viewAxis mv)) := by
    rw [hn]
    exact sp_normal_view A.d (viewAxis mv) hd hr
  refine ⟨hv, ?_, ?_, hdn, length_v_of_unit _ hd, hn⟩
  · simp only [residual, Vec3.sub, Vec3.smul, Vec3.mk.injEq]
    exact ⟨by ring, by ring, by ring⟩
  · rw [hv]
    exact length_v_pos _ hr

/-- C19 at the arrow `demoArrow`. -/
theorem C19_normal_faces_view_witness :
    NonDegenerate (rotX90 : Mat4 ℝ) ⟨0, 0, 0⟩ ⟨0, 0, -1⟩ ∧
    0 < scalarproduct_v (demoArrow Real.sqrt).n (viewAxis rotX90) :=
  ⟨demo_nonDegenerate,
   (C19_normal_faces_view (fun _ => 100) (fun _ => 100) rotX90 0 0 0 0 0 (-1) 0.1 0.1
      (some "near") 0.075 demo_nonDegenerate (demoArrow Real.sqrt) rfl).2.2.1⟩

/-- C20: no arrow of the scene is ever degenerate.  For every orbit angle `alpha` the modelview
matrix is `translate(0,0,-5) * rotateX(30) * rotateY(alpha) * translate(0,0,2.5)`, the view axis
that `draw_arrow` reads is `(-cos30*sin(alpha), sin30, cos30*cos(alpha))`, every scene arrow has
`start ≠ end` and a direction of which the view axis is no scalar multiple, and so both
`normalize_v` calls of `draw_arrow` receive a vector of nonzero length. -/
theorem C20_scene_never_degenerate (wd adv : Char → ℝ) (alpha : ℝ) (F : ObserverFrame ℝ)
    (hF : F = display_observer Real.sqrt (fun a => Real.cos (a * Real.pi / 180))
      (fun a => Real.sin (a * Real.pi / 180)) fmodExact wd adv alpha) :
    F.mv = glTranslatef
      (glRotatef Real.sqrt (fun a => Real.cos (a * Real.pi / 180))
        (fun a => Real.sin (a * Real.pi / 180))
        (glRotatef Real.sqrt (fun a => Real.cos (a * Real.pi / 180))
          (fun a => Real.sin (a * Real.pi / 180))
          (glTranslatef Mat4.identity 0 0 (-5)) 30 1 0 0) alpha 0 1 0) 0 0 2.5 ∧
    viewAxis F.mv
      = ⟨-(Real.cos (30 * Real.pi / 180) * Real.sin (alpha * Real.pi / 180)),
         Real.sin (30 * Real.pi / 180),
         Real.cos (30 * Real.pi / 180) * Real.cos (alpha * Real.pi / 180)⟩ ∧
    (arrowCalls F.submissions).length = 5 ∧
    (∀ c g, Submission.arrow c g ∈ F.submissions →
      c.start ≠ c.stop ∧
      (∀ k : ℝ, viewAxis F.mv ≠ Vec3.smul k (Vec3.sub c.stop c.start)) ∧
      NonDegenerate F.mv c.start c.stop ∧
      g.d = normalize_v Real.sqrt (Vec3.sub c.stop c.start) ∧
      length_v Real.sqrt (Vec3.sub c.stop c.start) ≠ 0 ∧
      g.n = normalize_v Real.sqrt (residual g.d (viewAxis F.mv)) ∧
      length_v Real.sqrt (residual g.d (viewAxis F.mv)) ≠ 0) := by
  subst hF
  refine ⟨rfl, scene_viewAxis _ wd adv alpha, rfl, ?_⟩
  intro c g hm
  have hnd := scene_nonDegenerate fmodExact wd adv alpha c (mem_arrowCalls _ c g hm)
  have hg := scene_arrow_geometry _ _ _ wd adv alpha c g hm
  have hl := arrow_lengths_ne_zero wd adv _ c hnd
  subst hg
  exact ⟨hnd.1, hnd.2, hnd, rfl, hl.1, rfl, hl.2⟩

/-- C20 at the first frame (`alpha = 0`): the "top" arrow, from `(0, 0, -1)` to `(0, 0.5, -1)`,
is non-degenerate. -/
theorem C20_scene_never_degenerate_witness :
    NonDegenerate (display_observer Real.sqrt (fun a => Real.cos (a * Real.pi / 180))
      (fun a => Real.sin (a * Real.pi / 180)) fmodExact
        (fun _ => 100) (fun _ => 100) 0).mv
      (ArrowCall.start ⟨0, 0, -1, 0, 0.5, -1, 0, 0.1, some "top", 0.075⟩)
      (ArrowCall.stop ⟨0, 0, -1, 0, 0.5, -1, 0, 0.1, some "top", 0.075⟩) :=
  ((C20_scene_never_degenerate (fun _ => 100) (fun _ => 100) 0 _ rfl).2.2.2
    ⟨0, 0, -1, 0, 0.5, -1, 0, 0.1, some "top", 0.075⟩ _
    (List.Mem.tail _ (List.Mem.tail _ (List.Mem.tail _ (List.Mem.tail _
      (List.Mem.tail _ (List.Mem.head _))))))).2.2.1

end Claims

end Frustum
